import Mathlib

/-!
Shallow embedding of the tiered-FDR engine of `src/lib/py/ComputeFDR.py`
(the `ComputeFDRRefactor` subcommand and its helper routines).

Modelling conventions:
* Python `float('inf')` tier sentinels live in `ETier := WithTop ℤ`
  (integer tiers, plus `⊤` for "unknown tier").
* Python dictionaries keyed by tier (built with `setdefault(..).append/push_back`)
  are represented by the list of `(key, value)` insertion events; `dictKeys`
  and `dictGet` recover the key set and the per-key value lists.
* Python dictionaries keyed by string (`pg_lookup`, `protein_to_tier`) are
  represented by their `(key, value)` assignment lists; `pyFind` performs the
  last-assignment-wins lookup of `dict.get` / `dict[...]`.
* Exceptions (`IndexError` on `[0]` of an empty list, `KeyError` on a missing
  dict key, `ValueError` for configuration errors, `RuntimeError` for missing
  inputs) become `Except Err`.
* Scores, probabilities, significance thresholds and timestamps are carried
  opaquely by this code (never computed on), so their float/string payloads
  are modelled by `ℚ` / `String` values.
* The pyopenms `FalseDiscoveryRate` object is an external black box; it is
  modelled by an `FdrOracle` of arbitrary per-record annotator functions whose
  inputs are the whole tier-local record collections (matching the in-place
  `apply`/`applyBasic`/`applyPickedProteinFDR` calls, which rewrite each
  record's statistics as a function of the records they were handed).
-/

/-- Failure modes of the engine: `indexError` for unguarded `[0]` access,
`configError` for `--group-fdr` without `--database` (`ValueError` in source),
`inputError` for the missing-identifications `RuntimeError`s, and `keyError`
for a failed `pg_lookup[...]` access. -/
inductive Err where
  | indexError : Err
  | configError : Err
  | inputError : Err
  | keyError : String → Err
deriving DecidableEq, Repr

/-- Tier values: `-1` (contaminant sentinel), non-negative database tiers, or
`⊤` for `float('inf')` ("accession absent from the tier map"). -/
abbrev ETier := WithTop ℤ

/-- Tier map produced by `_generate_protein_to_tier_map`: accession → tier. -/
abbrev TierMap := List (String × ℤ)

/-- Last-assignment-wins lookup of a Python dict represented as its assignment
list (`d.get(k)` / `d[k]`). -/
def pyFind {V : Type} (l : List (String × V)) (k : String) : Option V :=
  (l.reverse.find? (fun p => decide (p.1 = k))).map (fun p => p.2)

/-- Configuration surface of the subcommand that the helpers consult:
decoy prefix, contaminant prefix, `--group-fdr`, `--nopg-fdr`. -/
structure Config where
  decoyPre : String
  contamPre : String
  groupFdr : Bool
  nopgFdr : Bool
deriving DecidableEq, Repr

/-- Peptide evidence (`PeptideEvidence`): the protein accession it points at. -/
structure Evidence where
  accession : String
deriving DecidableEq, Repr

/-- Peptide hit (`PeptideHit`): score, evidences, and the `target_decoy` /
`tier` meta values the classifier writes (absent before classification). -/
structure PeptideHit where
  score : ℚ
  evidences : List Evidence
  targetDecoy : Option String
  tier : Option ETier
deriving DecidableEq, Repr

/-- Peptide identification (`PeptideIdentification`): its list of hits. -/
structure PeptideId where
  hits : List PeptideHit
deriving DecidableEq, Repr

/-- Protein hit (`ProteinHit`): accession, score, and classifier meta values. -/
structure ProteinHit where
  accession : String
  score : ℚ
  targetDecoy : Option String
  tier : Option ETier
deriving DecidableEq, Repr

/-- Protein group (`ProteinGroup`): probability plus ordered accession list;
the first accession is the group's canonical key. -/
structure ProteinGroup where
  probability : ℚ
  accessions : List String
deriving DecidableEq, Repr

/-- Run-level metadata of a `ProteinIdentification` record, i.e. exactly the
fields `_apply_fdr_to_tiers` copies from the first loaded record. -/
structure RunMeta where
  identifier : String
  higherScoreBetter : Bool
  msRuns : List String
  scoreType : String
  searchEngine : String
  searchEngineVersion : String
  searchParams : String
  sigThreshold : ℚ
  dateTime : String
deriving DecidableEq, Repr

/-- Loaded `ProteinIdentification` record: run metadata, protein hits, and any
protein groups carried by the record (used when no protXML file is given). -/
structure LoadedProteinId where
  meta : RunMeta
  hits : List ProteinHit
  groups : List ProteinGroup
deriving DecidableEq, Repr

/-- Merged output `ProteinIdentification` assembled by `_apply_fdr_to_tiers`. -/
structure ProteinIdOut where
  meta : RunMeta
  hits : List ProteinHit
  groups : List ProteinGroup
  indistProts : List ProteinGroup
deriving DecidableEq, Repr

/-- Structural character-list version of `str.startswith`, kept
kernel-reducible so that concrete runs evaluate by `rfl`/`decide`. -/
def charsPre : List Char → List Char → Bool
  | [], _ => true
  | _ :: _, [] => false
  | p :: ps, c :: cs => p == c && charsPre ps cs

/-- Python `s.startswith(pre)` on the character sequences of the strings. -/
def strStarts (s pre : String) : Bool := charsPre pre.data s.data

/-- Contaminant test of the classifier helpers: the accession starts with the
contaminant prefix, or with decoy prefix + contaminant prefix concatenated. -/
def isContam (cfg : Config) (acc : String) : Bool :=
  strStarts acc cfg.contamPre || strStarts acc (cfg.decoyPre ++ cfg.contamPre)

/-- Target test: the accession does not start with the decoy prefix. -/
def isTargetAcc (cfg : Config) (acc : String) : Bool :=
  !(strStarts acc cfg.decoyPre)

/-- Resolved tier of one accession under grouped FDR: `-1` for contaminants,
otherwise `protein_to_tier.get(acc, float('inf'))`. -/
def accTierG (cfg : Config) (m : TierMap) (acc : String) : ETier :=
  if isContam cfg acc then ((-1 : ℤ) : ETier)
  else match pyFind m acc with
    | some t => (t : ETier)
    | none => ⊤

/-- Encoding of a Python bool inside a sort key (`False = 0 < True = 1`). -/
def bN (b : Bool) : ℕ := if b then 1 else 0

/-- Sort key `(x[1], x[2]) = (is_target, tier)` that `_infer_psm_db_info`
sorts evidences by: with `group_fdr` the tier component is the resolved tier,
without it the constant `0`. -/
def eviKey (cfg : Config) (m : TierMap) (acc : String) : ℕ × ETier :=
  if cfg.groupFdr then (bN (isTargetAcc cfg acc), accTierG cfg m acc)
  else (bN (isTargetAcc cfg acc), (0 : ℤ))

/-- Lexicographic non-strict order on evidence sort keys, matching Python's
tuple comparison inside `sorted`. -/
def keyLe (a b : ℕ × ETier) : Prop :=
  a.1 < b.1 ∨ (a.1 = b.1 ∧ a.2 ≤ b.2)

instance keyLeDec : DecidableRel keyLe := by
  intro a b
  unfold keyLe
  infer_instance

/-- Evidence comparison used by the stable sort in `_infer_psm_db_info`. -/
def evRel (cfg : Config) (m : TierMap) (a b : Evidence) : Prop :=
  keyLe (eviKey cfg m a.accession) (eviKey cfg m b.accession)

instance evRelDec (cfg : Config) (m : TierMap) : DecidableRel (evRel cfg m) := by
  intro a b
  unfold evRel
  infer_instance

instance keyLeTotal : IsTotal (ℕ × ETier) keyLe where
  total a b := by
    unfold keyLe
    rcases lt_trichotomy a.1 b.1 with h | h | h
    · exact Or.inl (Or.inl h)
    · rcases le_total a.2 b.2 with h2 | h2
      · exact Or.inl (Or.inr ⟨h, h2⟩)
      · exact Or.inr (Or.inr ⟨h.symm, h2⟩)
    · exact Or.inr (Or.inl h)

instance keyLeTrans : IsTrans (ℕ × ETier) keyLe where
  trans a b c hab hbc := by
    unfold keyLe at *
    rcases hab with h1 | ⟨h1, h1'⟩
    · rcases hbc with h2 | ⟨h2, _⟩
      · exact Or.inl (h1.trans h2)
      · exact Or.inl (h2 ▸ h1)
    · rcases hbc with h2 | ⟨h2, h2'⟩
      · exact Or.inl (h1 ▸ h2)
      · exact Or.inr ⟨h1.trans h2, h1'.trans h2'⟩

instance evRelTotal (cfg : Config) (m : TierMap) : IsTotal Evidence (evRel cfg m) where
  total a b := keyLeTotal.total _ _

instance evRelTrans (cfg : Config) (m : TierMap) : IsTrans Evidence (evRel cfg m) where
  trans a b c := keyLeTrans.trans _ _ _

/-- Classification of one `PeptideHit` inside `_infer_psm_db_info`: build per
evidence the `(is_target, tier)` tuple, stable-sort evidences ascending by it
(Python's `sorted` is a stable ascending sort, modelled by Mathlib's stable
`insertionSort`), read `target_decoy` (and, under `group_fdr`, `tier`) off the
first sorted evidence, and replace the hit's evidence list by the sorted
order. The unguarded `evidences_sorted[0]` raises `IndexError` when the hit
has no evidences. -/
def inferPsmHit (cfg : Config) (m : TierMap) (h : PeptideHit) : Except Err PeptideHit :=
  match hs : h.evidences.insertionSort (evRel cfg m) with
  | [] => .error .indexError
  | e0 :: rest =>
    .ok { h with
      evidences := e0 :: rest,
      targetDecoy := some (if isTargetAcc cfg e0.accession then "target" else "decoy"),
      tier := if cfg.groupFdr then some (accTierG cfg m e0.accession) else h.tier }

/-- Sequential `mapM` over `Except`, mirroring a Python loop in which a raised
exception aborts the whole traversal. -/
def exMapM {α β : Type} (f : α → Except Err β) : List α → Except Err (List β)
  | [] => .ok []
  | x :: xs => do
    let y ← f x
    let ys ← exMapM f xs
    .ok (y :: ys)

/-- Embedding of `_infer_psm_db_info`: classify every hit of the peptide
identification and store the processed hit list back on the record. -/
def inferPsmDbInfo (cfg : Config) (m : TierMap) (p : PeptideId) : Except Err PeptideId := do
  let hs ← exMapM (inferPsmHit cfg m) p.hits
  .ok { hits := hs }

/-- Embedding of `_infer_protein_db_info`: classify a single protein hit from
its accession alone and write the `target_decoy` / `tier` meta values. -/
def inferProteinDbInfo (cfg : Config) (m : TierMap) (h : ProteinHit) : ProteinHit :=
  { h with
    targetDecoy := some (if isTargetAcc cfg h.accession then "target" else "decoy"),
    tier := some (if cfg.groupFdr then accTierG cfg m h.accession else (0 : ℤ)) }

/-- Embedding of `_infer_protein_group_db_info`: without `group_fdr` the group
is passed through at tier `0`; with it, every accession is resolved to a tier,
the group's tier is the first accession's tier (`tiers[0]`, an `IndexError`
when the accession list is empty), and a fresh group carries the same
probability plus exactly the accessions whose tier equals the group tier. -/
def inferProteinGroupDbInfo (cfg : Config) (m : TierMap) (pg : ProteinGroup) :
    Except Err (ETier × ProteinGroup) :=
  if !cfg.groupFdr then .ok ((0 : ℤ), pg)
  else
    match pg.accessions with
    | [] => .error .indexError
    | a0 :: _ =>
      let t0 := accTierG cfg m a0
      .ok (t0, { probability := pg.probability,
                 accessions := pg.accessions.filter (fun a => decide (accTierG cfg m a = t0)) })

/-- Key list of a tier-keyed Python dict represented by its insertion events
(each key listed once; only membership and the all-keys-equal case matter). -/
def dictKeys {X : Type} (pairs : List (ETier × X)) : List ETier :=
  (pairs.map (fun p => p.1)).dedup

/-- Value list `d[t]` of a tier-keyed dict-of-lists built with
`setdefault(t, []).append(x)`: the values inserted under `t`, in order. -/
def dictGet {X : Type} (pairs : List (ETier × X)) (t : ETier) : List X :=
  pairs.filterMap (fun p => if p.1 = t then some p.2 else none)

/-- Bucket key of one classified peptide identification (line 193 of source):
`hits[0]` meta `tier` when `group_fdr` is set and the record has hits, else
`0`. Classification under `group_fdr` always sets the meta; `getD 0` covers
the unreachable unset case. -/
def pepTierKey (cfg : Config) (p : PeptideId) : ETier :=
  match p.hits with
  | [] => (0 : ℤ)
  | h :: _ => if cfg.groupFdr then h.tier.getD ((0 : ℤ) : ETier) else (0 : ℤ)

/-- Embedding of `_bucket_peptide_identifications`: classify every peptide
identification and record the `(tier, record)` insertion events of the
tier-keyed bucket dict. -/
def bucketPeptideIds (cfg : Config) (m : TierMap) (peps : List PeptideId) :
    Except Err (List (ETier × PeptideId)) :=
  exMapM (fun p => do
    let q ← inferPsmDbInfo cfg m p
    .ok (pepTierKey cfg q, q)) peps

/-- Embedding of `_bucket_protein_hits`: classify every protein hit of every
loaded record and record the `(tier, hit)` insertion events. -/
def bucketProteinHits (cfg : Config) (m : TierMap) (proteinIds : List LoadedProteinId) :
    List (ETier × ProteinHit) :=
  (proteinIds.flatMap (fun pid => pid.hits)).map (fun h0 =>
    let h := inferProteinDbInfo cfg m h0
    ((if cfg.groupFdr then h.tier.getD ((0 : ℤ) : ETier) else (0 : ℤ)), h))

/-- Embedding of `_bucket_protein_groups`: empty with `--nopg-fdr`, otherwise
the `(tier, filtered group)` insertion events produced by the group
classifier. -/
def bucketProteinGroups (cfg : Config) (m : TierMap) (pgs : List ProteinGroup) :
    Except Err (List (ETier × ProteinGroup)) :=
  if cfg.nopgFdr then .ok []
  else exMapM (inferProteinGroupDbInfo cfg m) pgs

/-- Embedding of `_collect_tiers`: the union of the keys of the three bucket
dicts (a set; `dedup` removes repetitions, order is irrelevant because the
caller sorts). -/
def collectTiers {A B C : Type} (pp : List (ETier × A)) (hp : List (ETier × B))
    (gp : List (ETier × C)) : List ETier :=
  (dictKeys pp ++ dictKeys hp ++ dictKeys gp).dedup

/-- Ascending traversal order `sorted(tiers)` of the tier set. -/
def sortTiers (ts : List ETier) : List ETier :=
  ts.insertionSort (fun a b => a ≤ b)

/-- Black-box model of the pyopenms `FalseDiscoveryRate` primitives. Each
in-place call annotates every record of the collections it is handed, as an
arbitrary function of those collections: `pepQ` for `fdr.apply(pep_ids)`,
`basicHit` for `fdr.applyBasic(prot_ids, groups_too=False)`, `pickedHit` /
`pickedGrp` / `pickedIp` for `fdr.applyPickedProteinFDR(...)` on hits, protein
groups, and indistinguishable-protein views (the latter two rewrite only the
group's probability statistic). -/
structure FdrOracle where
  pepQ : List PeptideId → PeptideId → PeptideId
  basicHit : List ProteinHit → ProteinHit → ProteinHit
  pickedHit : List ProteinHit → List ProteinGroup → ProteinHit → ProteinHit
  pickedGrp : List ProteinHit → List ProteinGroup → ProteinGroup → ℚ
  pickedIp : List ProteinHit → List ProteinGroup → ProteinGroup → ℚ

/-- Identity oracle (annotators that leave every record unchanged); used to
instantiate witnesses on concrete inputs. -/
def idOracle : FdrOracle where
  pepQ := fun _ p => p
  basicHit := fun _ h => h
  pickedHit := fun _ _ h => h
  pickedGrp := fun _ _ g => g.probability
  pickedIp := fun _ _ g => g.probability

/-- Group write-back loop of `_apply_fdr_to_tiers` (lines 299-307): look each
tier-local group up in `pg_lookup` by its first accession (`IndexError` when
the accession list is empty, `KeyError` when the key is absent) and copy only
the probability statistic onto the original pre-filter group object. -/
def mergeGroupOne (lk : List (String × ProteinGroup)) (g : ProteinGroup) :
    Except Err ProteinGroup :=
  match g.accessions with
  | [] => .error .indexError
  | a :: _ =>
    match pyFind lk a with
    | none => .error (.keyError a)
    | some orig => .ok { orig with probability := g.probability }

def mergeGroups (lk : List (String × ProteinGroup)) (gs : List ProteinGroup) :
    Except Err (List ProteinGroup) :=
  exMapM (mergeGroupOne lk) gs

/-- Per-tier result of the loop body of `_apply_fdr_to_tiers`. -/
structure TierOutput where
  peps : List PeptideId
  hits : List ProteinHit
  grps : List ProteinGroup
  ips : List ProteinGroup
deriving DecidableEq, Repr

/-- Loop body of `_apply_fdr_to_tiers` for one tier: gather the tier's three
buckets, run the peptide FDR and the basic/picked protein FDR over them, and
(unless `--nopg-fdr`) write the group statistics back through `pg_lookup`. -/
def processTier (o : FdrOracle) (cfg : Config) (lk : List (String × ProteinGroup))
    (pp : List (ETier × PeptideId)) (hp : List (ETier × ProteinHit))
    (gp : List (ETier × ProteinGroup)) (t : ETier) : Except Err TierOutput :=
  let peps := dictGet pp t
  let hits := dictGet hp t
  let grps := dictGet gp t
  let pepsOut := peps.map (o.pepQ peps)
  let hitsOut := if cfg.nopgFdr then hits.map (o.basicHit hits)
                 else hits.map (o.pickedHit hits grps)
  do
    let grpsOut ← if cfg.nopgFdr then pure []
                  else mergeGroups lk (grps.map (fun g =>
                    { g with probability := o.pickedGrp hits grps g }))
    let ipsOut ← if cfg.nopgFdr then pure []
                 else mergeGroups lk (grps.map (fun g =>
                   { g with probability := o.pickedIp hits grps g }))
    .ok { peps := pepsOut, hits := hitsOut, grps := grpsOut, ips := ipsOut }

/-- Embedding of `_apply_fdr_to_tiers`: process the tiers in ascending order,
concatenate the per-tier outputs, fail with the missing-metadata
`RuntimeError` when no protein-identification record was loaded, and
otherwise assemble the single merged output record from the first loaded
record's run metadata. -/
def applyFdrToTiers (o : FdrOracle) (cfg : Config) (tiers : List ETier)
    (pp : List (ETier × PeptideId)) (hp : List (ETier × ProteinHit))
    (gp : List (ETier × ProteinGroup)) (lk : List (String × ProteinGroup))
    (proteinIds : List LoadedProteinId) :
    Except Err (List ProteinIdOut × List PeptideId) := do
  let outs ← exMapM (processTier o cfg lk pp hp gp) (sortTiers tiers)
  match proteinIds with
  | [] => .error .inputError
  | ref :: _ =>
    .ok ([{ meta := ref.meta,
            hits := (outs.map (fun u => u.hits)).flatten,
            groups := (outs.map (fun u => u.grps)).flatten,
            indistProts := (outs.map (fun u => u.ips)).flatten }],
         (outs.map (fun u => u.peps)).flatten)

/-- Dict comprehension `{pg.accessions[0]: pg for pg in groups}` building the
global group lookup (`IndexError` on a group with no accessions). -/
def pgLookupEntry (pg : ProteinGroup) : Except Err (String × ProteinGroup) :=
  match pg.accessions with
  | [] => .error .indexError
  | a :: _ => .ok (a, pg)

def mkPgLookup (pgs : List ProteinGroup) : Except Err (List (String × ProteinGroup)) :=
  exMapM pgLookupEntry pgs

/-- Embedding of `_resolve_protein_groups`: empty with `--nopg-fdr`; otherwise
the groups come from the protXML file when one is given, else from the loaded
protein-identification records, and the canonical-accession lookup is built. -/
def resolveProteinGroups (cfg : Config) (protXml : Option (List ProteinGroup))
    (proteinIds : List LoadedProteinId) :
    Except Err (List ProteinGroup × List (String × ProteinGroup)) :=
  if cfg.nopgFdr then .ok ([], [])
  else
    let pgs := match protXml with
      | some l => l
      | none => proteinIds.flatMap (fun pid => pid.groups)
    do
      let lk ← mkPgLookup pgs
      .ok (pgs, lk)

/-- Leading digit run of a character list, as consumed by the `(\d+)` group. -/
def takeDigits : List Char → List Char
  | [] => []
  | c :: cs => if c.isDigit then c :: takeDigits cs else []

/-- Numeric value of a digit run. -/
def digitsVal (ds : List Char) : ℕ :=
  ds.foldl (fun n c => n * 10 + (c.toNat - 48)) 0

/-- Left-to-right scan of `re.search(r'PE=(\d+)', line)`: the first position
where `PE=` is followed by at least one digit yields the digit run's value. -/
def findPETier : List Char → Option ℕ
  | [] => none
  | c :: rest =>
    match c, rest with
    | 'P', 'E' :: '=' :: ds =>
      let d := takeDigits ds
      if d.isEmpty then findPETier rest else some (digitsVal d)
    | _, _ => findPETier rest

/-- Accession of a FASTA header line: `line.split(' ', 1)[0][1:]`, the text up
to the first space with the leading marker character removed. -/
def headerAccession (line : String) : String :=
  ((line.takeWhile (fun c => c ≠ ' ')).drop 1)

/-- Python dict assignment `d[k] = v` on an assignment-list representation
that keeps keys unique: replace the existing entry or append a new one. -/
def tmInsert (m : TierMap) (k : String) (v : ℤ) : TierMap :=
  if m.any (fun p => decide (p.1 = k)) then m.map (fun p => if p.1 = k then (k, v) else p)
  else m ++ [(k, v)]

/-- Embedding of `_generate_protein_to_tier_map`: for every header line (`>`)
whose text matches `PE=(\d+)`, map the header's accession to the matched tier
value. Lines are given without their trailing newline. -/
def generateProteinToTierMap (lines : List String) : TierMap :=
  lines.foldl (fun m line =>
    if strStarts line ">" then
      match findPETier line.data with
      | none => m
      | some t => tmInsert m (headerAccession line) (t : ℤ)
    else m) []

/-- Embedding of `_prepare_protein_to_tier_map`: empty map when `--group-fdr`
is off (the database argument is never consulted); `ValueError` when
`--group-fdr` is set without `--database`; otherwise the generated map. -/
def prepareProteinToTierMap (cfg : Config) (database : Option (List String)) :
    Except Err TierMap :=
  if !cfg.groupFdr then .ok []
  else
    match database with
    | none => .error .configError
    | some lines => .ok (generateProteinToTierMap lines)

/-- In-memory body of `ComputeFDRRefactor.func` after file loading, with the
tier map already prepared: the empty-input check, group resolution, the three
bucketizers, tier collection, and the per-tier FDR merge. -/
def runEngine (o : FdrOracle) (cfg : Config) (m : TierMap)
    (protXml : Option (List ProteinGroup)) (proteinIds : List LoadedProteinId)
    (peptideIds : List PeptideId) :
    Except Err (List ProteinIdOut × List PeptideId) :=
  if peptideIds.isEmpty && proteinIds.isEmpty then .error .inputError
  else do
    let r ← resolveProteinGroups cfg protXml proteinIds
    let pp ← bucketPeptideIds cfg m peptideIds
    let hp := bucketProteinHits cfg m proteinIds
    let gp ← bucketProteinGroups cfg m r.1
    applyFdrToTiers o cfg (collectTiers pp hp gp) pp hp gp r.2 proteinIds

/-- Full in-memory pipeline including tier-map preparation, which the
subcommand performs before any identification work. -/
def runFull (o : FdrOracle) (cfg : Config) (database : Option (List String))
    (protXml : Option (List ProteinGroup)) (proteinIds : List LoadedProteinId)
    (peptideIds : List PeptideId) :
    Except Err (List ProteinIdOut × List PeptideId) := do
  let m ← prepareProteinToTierMap cfg database
  runEngine o cfg m protXml proteinIds peptideIds

/-- Reference run for the ungrouped-equivalence property (spec §8): classify
every record, then apply the peptide-level FDR estimator and the
protein-level FDR procedure exactly once over the full unpartitioned input,
and assemble the same merged output record — no tier partitioning at all. -/
def singlePassRun (o : FdrOracle) (cfg : Config) (m : TierMap)
    (protXml : Option (List ProteinGroup)) (proteinIds : List LoadedProteinId)
    (peptideIds : List PeptideId) :
    Except Err (List ProteinIdOut × List PeptideId) :=
  if peptideIds.isEmpty && proteinIds.isEmpty then .error .inputError
  else do
    let r ← resolveProteinGroups cfg protXml proteinIds
    let peps ← exMapM (inferPsmDbInfo cfg m) peptideIds
    let hits := (proteinIds.flatMap (fun pid => pid.hits)).map (inferProteinDbInfo cfg m)
    let grps := if cfg.nopgFdr then [] else r.1
    let pepsOut := peps.map (o.pepQ peps)
    let hitsOut := if cfg.nopgFdr then hits.map (o.basicHit hits)
                   else hits.map (o.pickedHit hits grps)
    let grpsOut ← if cfg.nopgFdr then pure []
                  else mergeGroups r.2 (grps.map (fun g =>
                    { g with probability := o.pickedGrp hits grps g }))
    let ipsOut ← if cfg.nopgFdr then pure []
                 else mergeGroups r.2 (grps.map (fun g =>
                   { g with probability := o.pickedIp hits grps g }))
    match proteinIds with
    | [] => .error .inputError
    | ref :: _ =>
      .ok ([{ meta := ref.meta, hits := hitsOut, groups := grpsOut,
              indistProts := ipsOut }], pepsOut)

/-- Tier traversal order of a run: the sorted union of the bucket keys, as
`_apply_fdr_to_tiers` receives it from `_collect_tiers`. -/
def processedTiers {A B C : Type} (pp : List (ETier × A)) (hp : List (ETier × B))
    (gp : List (ETier × C)) : List ETier :=
  sortTiers (collectTiers pp hp gp)

/-- Concrete grouped-FDR configuration with the default option prefixes. -/
def cfgG : Config :=
  { decoyPre := "rev_", contamPre := "contam_", groupFdr := true, nopgFdr := false }

/-- Concrete grouped-FDR configuration with protein-group FDR skipped. -/
def cfgGn : Config :=
  { decoyPre := "rev_", contamPre := "contam_", groupFdr := true, nopgFdr := true }

/-- Concrete ungrouped configuration with the default option prefixes. -/
def cfgU : Config :=
  { decoyPre := "rev_", contamPre := "contam_", groupFdr := false, nopgFdr := false }

/-- Concrete run metadata used by witness runs. -/
def metaA : RunMeta :=
  { identifier := "run1", higherScoreBetter := true, msRuns := ["a.mzML"],
    scoreType := "hyperscore", searchEngine := "MSFragger",
    searchEngineVersion := "3.8", searchParams := "params", sigThreshold := 0,
    dateTime := "2024-01-01" }

/-- Concrete loaded protein-identification record used by witness runs. -/
def pidA : LoadedProteinId :=
  { meta := metaA,
    hits := [{ accession := "A", score := 10, targetDecoy := none, tier := none },
             { accession := "rev_B", score := 4, targetDecoy := none, tier := none }],
    groups := [] }

/-- Concrete peptide identification (one hit, one target evidence) used by
witness runs. -/
def pepA : PeptideId :=
  { hits := [{ score := 7, evidences := [⟨"A"⟩], targetDecoy := none, tier := none }] }

/-- Concrete peptide identification with one target and one decoy evidence
(counterexample input for the evidence-sort direction). -/
def pepAB : PeptideId :=
  { hits := [{ score := 1, evidences := [⟨"A"⟩, ⟨"rev_B"⟩],
               targetDecoy := none, tier := none }] }

/-- Concrete peptide identification with one target contaminant and one plain
decoy evidence (counterexample input for tier dominance). -/
def pepCY : PeptideId :=
  { hits := [{ score := 1, evidences := [⟨"contam_X"⟩, ⟨"rev_Y"⟩],
               targetDecoy := none, tier := none }] }

/-- Concrete tier map with two tiers, used by isolation witnesses. -/
def mW : TierMap := [("A", 1), ("B", 2)]

/-- Concrete tier-2 peptide identification for isolation witnesses. -/
def pepB : PeptideId :=
  { hits := [{ score := 3, evidences := [⟨"B"⟩], targetDecoy := none, tier := none }] }

/-- Concrete tier-1-only protein-identification record. -/
def pidA1 : LoadedProteinId :=
  { meta := metaA,
    hits := [{ accession := "A", score := 10, targetDecoy := none, tier := none }],
    groups := [] }

/-- Concrete tier-2-only protein-identification record. -/
def pidB : LoadedProteinId :=
  { meta := metaA,
    hits := [{ accession := "B", score := 5, targetDecoy := none, tier := none }],
    groups := [] }

/-- Classified peptide bucket of `[pepA]` under `cfgGn`/`mW`. -/
def pW1 : List (ETier × PeptideId) :=
  [(((1 : ℤ) : ETier),
    { hits := [{ score := 7, evidences := [⟨"A"⟩], targetDecoy := some "target",
                 tier := some ((1 : ℤ) : ETier) }] })]

/-- Classified peptide bucket of `[pepB]` under `cfgGn`/`mW`. -/
def pW2 : List (ETier × PeptideId) :=
  [(((2 : ℤ) : ETier),
    { hits := [{ score := 3, evidences := [⟨"B"⟩], targetDecoy := some "target",
                 tier := some ((2 : ℤ) : ETier) }] })]

/-- Concrete tier-1 protein group used by isolation witnesses. -/
def pgA : ProteinGroup := { probability := 1, accessions := ["A"] }

/-- Concrete tier-2 protein group used by isolation witnesses. -/
def pgB : ProteinGroup := { probability := 1, accessions := ["B"] }

/-- Classified group bucket of `[pgA]` under `cfgG`/`mW`. -/
def qWA : List (ETier × ProteinGroup) := [(((1 : ℤ) : ETier), pgA)]

/-- Classified group bucket of `[pgB]` under `cfgG`/`mW`. -/
def qWB : List (ETier × ProteinGroup) := [(((2 : ℤ) : ETier), pgB)]

/-- Group lookup of `[pgA]`. -/
def lkA : List (String × ProteinGroup) := [("A", pgA)]

/-- Group lookup of `[pgB]`. -/
def lkB : List (String × ProteinGroup) := [("B", pgB)]

/-!
Helper lemmas about the embedding (shared by several claim theorems).
-/

theorem exBind_ok {α β : Type} (a : α) (g : α → Except Err β) :
    (Except.ok a >>= g) = g a := rfl

theorem exBind_err {α β : Type} (e : Err) (g : α → Except Err β) :
    ((Except.error e : Except Err α) >>= g) = .error e := rfl

theorem exMapM_nil {α β : Type} (f : α → Except Err β) : exMapM f [] = .ok [] := rfl

theorem exMap_ok {α β : Type} (a : α) (g : α → β) :
    (Except.ok a : Except Err α).map g = .ok (g a) := rfl

theorem exMap_err {α β : Type} (e : Err) (g : α → β) :
    (Except.error e : Except Err α).map g = .error e := rfl

theorem exMapM_cons {α β : Type} (f : α → Except Err β) (x : α) (xs : List α) :
    exMapM f (x :: xs) =
      (f x >>= fun y => exMapM f xs >>= fun ys => Except.ok (y :: ys)) := rfl

theorem exMapM_ok_of_forall {α β : Type} {R : α → β → Prop} (f : α → Except Err β)
    (xs : List α) (h : ∀ x ∈ xs, ∃ y, f x = .ok y ∧ R x y) :
    ∃ ys, exMapM f xs = .ok ys ∧ List.Forall₂ R xs ys := by
  induction xs with
  | nil => exact ⟨[], rfl, List.Forall₂.nil⟩
  | cons x xs ih =>
    obtain ⟨y, hy, hR⟩ := h x (List.mem_cons_self x xs)
    obtain ⟨ys, hys, hRs⟩ := ih (fun a ha => h a (List.mem_cons_of_mem _ ha))
    refine ⟨y :: ys, ?_, List.Forall₂.cons hR hRs⟩
    rw [exMapM_cons, hy, exBind_ok, hys, exBind_ok]

theorem exMapM_ok_forall₂ {α β : Type} (f : α → Except Err β) :
    ∀ (xs : List α) (ys : List β), exMapM f xs = .ok ys →
      List.Forall₂ (fun x y => f x = .ok y) xs ys := by
  intro xs
  induction xs with
  | nil =>
    intro ys h
    cases h
    exact List.Forall₂.nil
  | cons x xs ih =>
    intro ys h
    rw [exMapM_cons] at h
    cases hx : f x with
    | error e => rw [hx, exBind_err] at h; cases h
    | ok y =>
      rw [hx, exBind_ok] at h
      cases hxs : exMapM f xs with
      | error e => rw [hxs, exBind_err] at h; cases h
      | ok ys' =>
        rw [hxs, exBind_ok] at h
        cases h
        exact List.Forall₂.cons hx (ih ys' hxs)

theorem exMapM_error_mem {α β : Type} (f : α → Except Err β) :
    ∀ (xs : List α) (e : Err), exMapM f xs = .error e → ∃ x ∈ xs, f x = .error e := by
  intro xs
  induction xs with
  | nil =>
    intro e h
    cases h
  | cons x xs ih =>
    intro e h
    rw [exMapM_cons] at h
    cases hx : f x with
    | error e' =>
      rw [hx, exBind_err] at h
      cases h
      exact ⟨x, List.mem_cons_self x xs, hx⟩
    | ok y =>
      rw [hx, exBind_ok] at h
      cases hxs : exMapM f xs with
      | error e' =>
        rw [hxs, exBind_err] at h
        cases h
        obtain ⟨z, hz, hze⟩ := ih _ hxs
        exact ⟨z, List.mem_cons_of_mem _ hz, hze⟩
      | ok ys' => rw [hxs, exBind_ok] at h; cases h

theorem exMapM_append_ok {α β : Type} (f : α → Except Err β) {xs ys : List α}
    {as bs : List β} (hx : exMapM f xs = .ok as) (hy : exMapM f ys = .ok bs) :
    exMapM f (xs ++ ys) = .ok (as ++ bs) := by
  induction xs generalizing as with
  | nil =>
    cases hx
    simpa using hy
  | cons x xs ih =>
    rw [exMapM_cons] at hx
    cases hfx : f x with
    | error e => rw [hfx, exBind_err] at hx; cases hx
    | ok y =>
      rw [hfx, exBind_ok] at hx
      cases hxs : exMapM f xs with
      | error e => rw [hxs, exBind_err] at hx; cases hx
      | ok as' =>
        rw [hxs, exBind_ok] at hx
        cases hx
        rw [List.cons_append, exMapM_cons, hfx, exBind_ok, ih hxs, exBind_ok,
          List.cons_append]

theorem exMapM_of_ok_fun {α β : Type} (f : α → Except Err β) (g : α → β)
    (xs : List α) (h : ∀ x ∈ xs, f x = .ok (g x)) : exMapM f xs = .ok (xs.map g) := by
  induction xs with
  | nil => rfl
  | cons x xs ih =>
    rw [exMapM_cons, h x (List.mem_cons_self x xs), exBind_ok,
      ih (fun a ha => h a (List.mem_cons_of_mem _ ha)), exBind_ok, List.map_cons]

theorem exMapM_pair {α β γ : Type} (f : α → Except Err β) (k : β → γ) (xs : List α) :
    exMapM (fun x => do
      let y ← f x
      Except.ok (k y)) xs = (exMapM f xs).map (List.map k) := by
  induction xs with
  | nil => rfl
  | cons x xs ih =>
    rw [exMapM_cons, exMapM_cons]
    cases hx : f x with
    | error e => rfl
    | ok y =>
      cases hxs : exMapM f xs with
      | error e =>
        rw [hxs] at ih
        rw [ih]
        rfl
      | ok ys =>
        rw [hxs] at ih
        rw [ih]
        rfl

theorem forall₂_map_eq {α β γ : Type} {l1 : List α} {l2 : List β} {g : β → γ}
    {f : α → γ} (h : List.Forall₂ (fun a b => g b = f a) l1 l2) :
    l2.map g = l1.map f := by
  induction h with
  | nil => rfl
  | cons h1 _ ih => simp [List.map_cons, h1, ih]

theorem forall₂_mem_right {α β : Type} {R : α → β → Prop} {l1 : List α}
    {l2 : List β} (h : List.Forall₂ R l1 l2) {b : β} (hb : b ∈ l2) :
    ∃ a ∈ l1, R a b := by
  induction h with
  | nil => cases hb
  | cons h1 _ ih =>
    rcases List.mem_cons.mp hb with rfl | hb'
    · exact ⟨_, List.mem_cons_self _ _, h1⟩
    · obtain ⟨a, ha, hr⟩ := ih hb'
      exact ⟨a, List.mem_cons_of_mem _ ha, hr⟩

theorem dictGet_nil {X : Type} (t : ETier) : dictGet ([] : List (ETier × X)) t = [] := rfl

theorem dictGet_cons {X : Type} (t0 : ETier) (x : X) (ps : List (ETier × X)) (t : ETier) :
    dictGet ((t0, x) :: ps) t =
      if t0 = t then x :: dictGet ps t else dictGet ps t := by
  unfold dictGet
  by_cases h : t0 = t <;> simp [List.filterMap_cons, h]

theorem dictGet_append {X : Type} (p1 p2 : List (ETier × X)) (t : ETier) :
    dictGet (p1 ++ p2) t = dictGet p1 t ++ dictGet p2 t := by
  unfold dictGet
  exact List.filterMap_append _ _ _

theorem dictGet_all_keys {X : Type} (pairs : List (ETier × X)) (t0 : ETier)
    (h : ∀ pr ∈ pairs, pr.1 = t0) : dictGet pairs t0 = pairs.map (fun p => p.2) := by
  induction pairs with
  | nil => rfl
  | cons p ps ih =>
    obtain ⟨t1, x⟩ := p
    have ht : t1 = t0 := h (t1, x) (List.mem_cons_self _ _)
    rw [dictGet_cons, if_pos ht, ih (fun pr hpr => h pr (List.mem_cons_of_mem _ hpr)),
      List.map_cons]

theorem dictGet_none {X : Type} (pairs : List (ETier × X)) (t : ETier)
    (h : ∀ pr ∈ pairs, pr.1 ≠ t) : dictGet pairs t = [] := by
  induction pairs with
  | nil => rfl
  | cons p ps ih =>
    obtain ⟨t1, x⟩ := p
    rw [dictGet_cons, if_neg (h (t1, x) (List.mem_cons_self _ _)),
      ih (fun pr hpr => h pr (List.mem_cons_of_mem _ hpr))]

theorem dictGet_mem {X : Type} {pairs : List (ETier × X)} {t : ETier} {x : X}
    (h : x ∈ dictGet pairs t) : (t, x) ∈ pairs := by
  unfold dictGet at h
  obtain ⟨p, hp, hpx⟩ := List.mem_filterMap.mp h
  by_cases ht : p.1 = t
  · rw [if_pos ht] at hpx
    injection hpx with hx
    have hpeq : p = (t, x) := Prod.ext ht hx
    rwa [hpeq] at hp
  · rw [if_neg ht] at hpx
    cases hpx

theorem dictKeys_mem {X : Type} (pairs : List (ETier × X)) (t : ETier) :
    t ∈ dictKeys pairs ↔ ∃ pr ∈ pairs, pr.1 = t := by
  unfold dictKeys
  rw [List.mem_dedup, List.mem_map]

theorem dedup_const {α : Type} [DecidableEq α] (t : α) :
    ∀ (l : List α), l ≠ [] → (∀ x ∈ l, x = t) → l.dedup = [t] := by
  intro l
  induction l with
  | nil => intro h _; exact absurd rfl h
  | cons x xs ih =>
    intro _ hall
    have hx : x = t := hall x (List.mem_cons_self _ _)
    subst hx
    by_cases hxs : xs = []
    · subst hxs
      simp
    · have hmem : x ∈ xs := by
        cases xs with
        | nil => exact absurd rfl hxs
        | cons y ys =>
          have hy : y = x := hall y (List.mem_cons_of_mem _ (List.mem_cons_self _ _))
          rw [← hy]
          exact List.mem_cons_self _ _
      rw [List.dedup_cons_of_mem hmem]
      exact ih hxs (fun a ha => hall a (List.mem_cons_of_mem _ ha))

theorem dictKeys_all {X : Type} (pairs : List (ETier × X)) (t0 : ETier)
    (h : ∀ pr ∈ pairs, pr.1 = t0) (hne : pairs ≠ []) : dictKeys pairs = [t0] := by
  unfold dictKeys
  apply dedup_const
  · intro hmap
    exact hne (List.map_eq_nil_iff.mp hmap)
  · intro x hx
    obtain ⟨pr, hpr, rfl⟩ := List.mem_map.mp hx
    exact h pr hpr

theorem pyFind_mem {V : Type} {l : List (String × V)} {k : String} {v : V}
    (h : pyFind l k = some v) : (k, v) ∈ l := by
  unfold pyFind at h
  obtain ⟨p, hp, hpv⟩ := Option.map_eq_some'.mp h
  have hmem : p ∈ l.reverse := List.mem_of_find?_eq_some hp
  have hk : p.1 = k := by
    have := List.find?_some hp
    exact of_decide_eq_true this
  have : p = (k, v) := by
    obtain ⟨a, b⟩ := p
    simp at hk hpv
    rw [hk, hpv]
  rw [this] at hmem
  exact List.mem_reverse.mp hmem

theorem pyFind_isSome_of_key {V : Type} (l : List (String × V)) (k : String)
    (h : ∃ v, (k, v) ∈ l) : ∃ w, pyFind l k = some w := by
  obtain ⟨v, hv⟩ := h
  unfold pyFind
  have : (l.reverse.find? (fun p => decide (p.1 = k))).isSome := by
    rw [List.find?_isSome]
    exact ⟨(k, v), List.mem_reverse.mpr hv, by simp⟩
  obtain ⟨p, hp⟩ := Option.isSome_iff_exists.mp this
  exact ⟨p.2, by rw [hp]; rfl⟩

theorem keyLe_refl (a : ℕ × ETier) : keyLe a a := Or.inr ⟨rfl, le_refl _⟩

theorem keyLe_antisymm {a b : ℕ × ETier} (h1 : keyLe a b) (h2 : keyLe b a) : a = b := by
  rcases h1 with h1 | ⟨h1, h1'⟩
  · rcases h2 with h2 | ⟨h2, _⟩
    · exact absurd (h1.trans h2) (lt_irrefl _)
    · exact absurd h1 (by rw [h2]; exact lt_irrefl _)
  · rcases h2 with h2 | ⟨_, h2'⟩
    · exact absurd h2 (by rw [h1]; exact lt_irrefl _)
    · exact Prod.ext h1 (le_antisymm h1' h2')

theorem insertionSort_ne_nil {α : Type} (r : α → α → Prop) [DecidableRel r]
    {l : List α} (h : l ≠ []) : l.insertionSort r ≠ [] := by
  intro hs
  have hp := List.perm_insertionSort r l
  rw [hs] at hp
  exact h hp.symm.eq_nil

theorem inferPsmHit_ok {cfg : Config} {m : TierMap} {h : PeptideHit}
    (hne : h.evidences ≠ []) :
    ∃ e0 rest, h.evidences.insertionSort (evRel cfg m) = e0 :: rest ∧
      inferPsmHit cfg m h = .ok { h with
        evidences := e0 :: rest,
        targetDecoy := some (if isTargetAcc cfg e0.accession then "target" else "decoy"),
        tier := if cfg.groupFdr then some (accTierG cfg m e0.accession) else h.tier } := by
  cases hs : h.evidences.insertionSort (evRel cfg m) with
  | nil => exact absurd hs (insertionSort_ne_nil _ hne)
  | cons e0 rest =>
    refine ⟨e0, rest, rfl, ?_⟩
    unfold inferPsmHit
    split
    · rename_i heq
      rw [hs] at heq
      cases heq
    · rename_i e0' rest' heq
      rw [hs] at heq
      injection heq with h1 h2
      subst h1
      subst h2
      rfl

theorem inferPsmHit_empty {cfg : Config} {m : TierMap} {h : PeptideHit}
    (he : h.evidences = []) : inferPsmHit cfg m h = .error .indexError := by
  unfold inferPsmHit
  split
  · rfl
  · rename_i e0' rest' heq
    rw [he] at heq
    cases heq

theorem inferPsmHit_error_imp {cfg : Config} {m : TierMap} {h : PeptideHit} {e : Err}
    (he : inferPsmHit cfg m h = .error e) : e = .indexError ∧ h.evidences = [] := by
  by_cases hne : h.evidences = []
  · rw [inferPsmHit_empty hne] at he
    injection he with h1
    exact ⟨h1.symm, hne⟩
  · obtain ⟨e0, rest, _, hok⟩ := @inferPsmHit_ok cfg m _ hne
    rw [hok] at he
    cases he

theorem sorted_head_min {cfg : Config} {m : TierMap} {evs : List Evidence}
    {e0 : Evidence} {rest : List Evidence}
    (h : evs.insertionSort (evRel cfg m) = e0 :: rest) :
    ∀ e ∈ evs, evRel cfg m e0 e := by
  have hs := List.sorted_insertionSort (evRel cfg m) evs
  rw [h] at hs
  intro e he
  have hmem : e ∈ e0 :: rest := by
    rw [← h]
    exact (List.mem_insertionSort _).mpr he
  rcases List.mem_cons.mp hmem with rfl | hr
  · exact keyLe_refl _
  · exact List.rel_of_sorted_cons hs e hr

theorem inferPsmHit_tier_of_min {cfg : Config} {m : TierMap} {h h' : PeptideHit}
    {c : Evidence} (hg : cfg.groupFdr = true) (hc : c ∈ h.evidences)
    (hmin : ∀ e ∈ h.evidences, keyLe (eviKey cfg m c.accession) (eviKey cfg m e.accession))
    (hok : inferPsmHit cfg m h = .ok h') :
    h'.tier = some ((eviKey cfg m c.accession).2) := by
  have hne : h.evidences ≠ [] := by
    intro he
    rw [he] at hc
    cases hc
  obtain ⟨e0, rest, hs, hok'⟩ := @inferPsmHit_ok cfg m _ hne
  rw [hok'] at hok
  injection hok with hok
  have he0mem : e0 ∈ h.evidences := by
    have : e0 ∈ h.evidences.insertionSort (evRel cfg m) := by
      rw [hs]
      exact List.mem_cons_self _ _
    exact (List.mem_insertionSort _).mp this
  have hkey : eviKey cfg m e0.accession = eviKey cfg m c.accession :=
    keyLe_antisymm (sorted_head_min hs c hc) (hmin e0 he0mem)
  have htier : h'.tier = some (accTierG cfg m e0.accession) := by
    rw [← hok]
    simp [hg]
  rw [htier]
  have : (eviKey cfg m e0.accession).2 = (eviKey cfg m c.accession).2 := by
    rw [hkey]
  rw [← this]
  unfold eviKey
  rw [hg]
  simp

theorem pyFind_val_nonneg {m : TierMap} (hm : ∀ pr ∈ m, 0 ≤ pr.2) {acc : String}
    {t : ℤ} (h : pyFind m acc = some t) : 0 ≤ t :=
  hm (acc, t) (pyFind_mem h)

theorem accTierG_ge {cfg : Config} {m : TierMap} (hm : ∀ pr ∈ m, 0 ≤ pr.2)
    (acc : String) : ((-1 : ℤ) : ETier) ≤ accTierG cfg m acc := by
  unfold accTierG
  split
  · exact le_refl _
  · cases hf : pyFind m acc with
    | some t =>
      have ht : (0 : ℤ) ≤ t := pyFind_val_nonneg hm hf
      show ((-1 : ℤ) : ETier) ≤ (t : ETier)
      exact_mod_cast le_trans (by norm_num : (-1 : ℤ) ≤ 0) ht
    | none =>
      show ((-1 : ℤ) : ETier) ≤ (⊤ : ETier)
      exact le_top

theorem forall₂_mem_left {α β : Type} {R : α → β → Prop} {l1 : List α}
    {l2 : List β} (h : List.Forall₂ R l1 l2) {a : α} (ha : a ∈ l1) :
    ∃ b ∈ l2, R a b := by
  induction h with
  | nil => cases ha
  | cons h1 _ ih =>
    rcases List.mem_cons.mp ha with rfl | ha'
    · exact ⟨_, List.mem_cons_self _ _, h1⟩
    · obtain ⟨b, hb, hr⟩ := ih ha'
      exact ⟨b, List.mem_cons_of_mem _ hb, hr⟩

theorem inferPsmDbInfo_eq (cfg : Config) (m : TierMap) (p : PeptideId) :
    inferPsmDbInfo cfg m p =
      (exMapM (inferPsmHit cfg m) p.hits >>= fun hs => Except.ok (PeptideId.mk hs)) := rfl

/-- C7: when grouped FDR is requested without a database, tier-map
preparation fails with the configuration error (`ValueError` in source) and
the whole pipeline — which prepares the map before any FDR work — fails the
same way, producing no output; when grouped FDR is not requested, preparation
returns the empty map for every database argument (the argument is never
consulted). -/
theorem c7_prepare_tier_map (o : FdrOracle) (cfg : Config) :
    (cfg.groupFdr = true →
      prepareProteinToTierMap cfg none = .error .configError ∧
      ∀ (px : Option (List ProteinGroup)) (pids : List LoadedProteinId)
        (peps : List PeptideId),
        runFull o cfg none px pids peps = .error .configError) ∧
    (cfg.groupFdr = false →
      ∀ db : Option (List String), prepareProteinToTierMap cfg db = .ok []) := by
  constructor
  · intro hg
    have hp : prepareProteinToTierMap cfg none = .error .configError := by
      unfold prepareProteinToTierMap
      rw [hg]
      rfl
    refine ⟨hp, ?_⟩
    intro px pids peps
    unfold runFull
    rw [hp]
    rfl
  · intro hg db
    unfold prepareProteinToTierMap
    rw [hg]
    rfl

/-- Closed instance of `c7_prepare_tier_map`: the concrete grouped
configuration without a database fails with the configuration error, and the
concrete ungrouped configuration yields the empty map. -/
theorem c7_witness :
    prepareProteinToTierMap cfgG none = .error .configError ∧
    prepareProteinToTierMap cfgU (some [">P PE=1"]) = .ok [] :=
  ⟨((c7_prepare_tier_map idOracle cfgG).1 rfl).1,
   (c7_prepare_tier_map idOracle cfgU).2 rfl (some [">P PE=1"])⟩

/-- C10: classification of a peptide identification is total exactly when
every hit carries at least one evidence; a hit with an empty evidence list
makes `_infer_psm_db_info` fail with the `IndexError` of the unguarded
`evidences_sorted[0]` access, and under the all-hits-nonempty precondition
that branch is unreachable. -/
theorem c10_classification_totality (cfg : Config) (m : TierMap) (p : PeptideId) :
    ((inferPsmDbInfo cfg m p).isOk = true ↔ ∀ h ∈ p.hits, h.evidences ≠ []) ∧
    ((∃ h ∈ p.hits, h.evidences = []) → inferPsmDbInfo cfg m p = .error .indexError) := by
  have hmain : (inferPsmDbInfo cfg m p).isOk = true ↔ ∀ h ∈ p.hits, h.evidences ≠ [] := by
    constructor
    · intro hok h hh he
      rw [inferPsmDbInfo_eq] at hok
      cases hx : exMapM (inferPsmHit cfg m) p.hits with
      | error e => rw [hx, exBind_err] at hok; cases hok
      | ok ys =>
        have hf := exMapM_ok_forall₂ _ _ _ hx
        obtain ⟨b, _, hb⟩ := forall₂_mem_left hf hh
        rw [inferPsmHit_empty he] at hb
        cases hb
    · intro hall
      obtain ⟨ys, hys, _⟩ := exMapM_ok_of_forall (R := fun _ _ => True)
        (inferPsmHit cfg m) p.hits (fun h hh => by
          obtain ⟨e0, rest, _, hok⟩ := @inferPsmHit_ok cfg m _ (hall h hh)
          exact ⟨_, hok, trivial⟩)
      rw [inferPsmDbInfo_eq, hys, exBind_ok]
      rfl
  refine ⟨hmain, ?_⟩
  intro hex
  cases hr : inferPsmDbInfo cfg m p with
  | ok q =>
    obtain ⟨h, hh, he⟩ := hex
    have : (inferPsmDbInfo cfg m p).isOk = true := by rw [hr]; rfl
    exact absurd he (hmain.mp this h hh)
  | error e =>
    rw [inferPsmDbInfo_eq] at hr
    cases hx : exMapM (inferPsmHit cfg m) p.hits with
    | error e' =>
      rw [hx, exBind_err] at hr
      injection hr with hr
      obtain ⟨h, _, hherr⟩ := exMapM_error_mem _ _ _ hx
      obtain ⟨hei, _⟩ := inferPsmHit_error_imp hherr
      rw [← hr, ← hei]
    | ok ys => rw [hx, exBind_ok] at hr; cases hr

/-- Closed instance of `c10_classification_totality`: a concrete record with
evidence-bearing hits classifies successfully, and a concrete record with an
evidence-free hit fails with the index error. -/
theorem c10_witness :
    (inferPsmDbInfo cfgU [] pepA).isOk = true ∧
    inferPsmDbInfo cfgU []
      { hits := [{ score := 0, evidences := [], targetDecoy := none, tier := none }] }
      = .error .indexError := by
  constructor
  · refine (c10_classification_totality cfgU [] pepA).1.mpr ?_
    intro h hh
    rw [pepA] at hh
    rcases List.mem_cons.mp hh with rfl | hh'
    · intro he
      cases he
    · cases hh'
  · refine (c10_classification_totality cfgU [] _).2 ?_
    exact ⟨_, List.mem_cons_self _ _, rfl⟩

theorem applyFdrToTiers_eq (o : FdrOracle) (cfg : Config) (tiers : List ETier)
    (pp : List (ETier × PeptideId)) (hp : List (ETier × ProteinHit))
    (gp : List (ETier × ProteinGroup)) (lk : List (String × ProteinGroup))
    (proteinIds : List LoadedProteinId) :
    applyFdrToTiers o cfg tiers pp hp gp lk proteinIds =
      (exMapM (processTier o cfg lk pp hp gp) (sortTiers tiers) >>= fun outs =>
        match proteinIds with
        | [] => .error .inputError
        | ref :: _ =>
          .ok ([{ meta := ref.meta,
                  hits := (outs.map (fun u => u.hits)).flatten,
                  groups := (outs.map (fun u => u.grps)).flatten,
                  indistProts := (outs.map (fun u => u.ips)).flatten }],
               (outs.map (fun u => u.peps)).flatten)) := rfl

/-- C4: the merged output always carries exactly one protein-identification
record, whose run metadata (identifier, higher-score-better flag, primary MS
run paths, score type, engine name and version, search parameters,
significance threshold, timestamp — the fields of `RunMeta`) equals that of
the first loaded protein-identification record; with no loaded records the
merge never succeeds, and fails with the missing-metadata input error as soon
as the per-tier passes themselves have not already failed. -/
theorem c4_metadata_single_source (o : FdrOracle) (cfg : Config) (tiers : List ETier)
    (pp : List (ETier × PeptideId)) (hp : List (ETier × ProteinHit))
    (gp : List (ETier × ProteinGroup)) (lk : List (String × ProteinGroup))
    (proteinIds : List LoadedProteinId) :
    (proteinIds = [] →
      ∀ out, applyFdrToTiers o cfg tiers pp hp gp lk proteinIds ≠ .ok out) ∧
    (proteinIds = [] →
      ∀ outs, exMapM (processTier o cfg lk pp hp gp) (sortTiers tiers) = .ok outs →
        applyFdrToTiers o cfg tiers pp hp gp lk proteinIds = .error .inputError) ∧
    (∀ out, applyFdrToTiers o cfg tiers pp hp gp lk proteinIds = .ok out →
      ∃ ref rest fin, proteinIds = ref :: rest ∧ out.1 = [fin] ∧ fin.meta = ref.meta) := by
  refine ⟨?_, ?_, ?_⟩
  · intro hnil out hok
    subst hnil
    rw [applyFdrToTiers_eq] at hok
    cases hx : exMapM (processTier o cfg lk pp hp gp) (sortTiers tiers) with
    | error e => rw [hx, exBind_err] at hok; cases hok
    | ok outs => rw [hx, exBind_ok] at hok; cases hok
  · intro hnil outs hx
    subst hnil
    rw [applyFdrToTiers_eq, hx, exBind_ok]
  · intro out hok
    rw [applyFdrToTiers_eq] at hok
    cases hx : exMapM (processTier o cfg lk pp hp gp) (sortTiers tiers) with
    | error e => rw [hx, exBind_err] at hok; cases hok
    | ok outs =>
      rw [hx, exBind_ok] at hok
      cases proteinIds with
      | nil => cases hok
      | cons ref rest =>
        injection hok with hok
        subst hok
        exact ⟨ref, rest, _, rfl, rfl, rfl⟩

/-- Closed instance of `c4_metadata_single_source`: with no loaded records the
concrete merge fails with the input error, and a concrete successful merge
yields exactly one output record carrying `pidA`'s metadata. -/
theorem c4_witness :
    applyFdrToTiers idOracle cfgU [] [] [] [] [] [] = .error .inputError ∧
    ∃ out, applyFdrToTiers idOracle cfgU [(0 : ℤ)]
        [((0 : ℤ), pepA)] [] [] [] [pidA] = .ok out ∧
      ∃ fin, out.1 = [fin] ∧ fin.meta = pidA.meta := by
  constructor
  · exact (c4_metadata_single_source idOracle cfgU [] [] [] [] [] []).2.1 rfl [] rfl
  · have hok : applyFdrToTiers idOracle cfgU [(0 : ℤ)]
        [((0 : ℤ), pepA)] [] [] [] [pidA] =
        .ok ([{ meta := pidA.meta, hits := [], groups := [], indistProts := [] }],
             [pepA]) := by rfl
    obtain ⟨ref, rest, fin, _, hout, hmeta⟩ :=
      (c4_metadata_single_source idOracle cfgU [(0 : ℤ)]
        [((0 : ℤ), pepA)] [] [] [] [pidA]).2.2 _ hok
    refine ⟨_, hok, fin, hout, ?_⟩
    rename_i hpid
    injection hpid with h1 _
    rw [hmeta, ← h1]

theorem mergeGroupOne_ok {lk : List (String × ProteinGroup)} {g r : ProteinGroup}
    (h : mergeGroupOne lk g = .ok r) :
    ∃ a arest orig, g.accessions = a :: arest ∧ pyFind lk a = some orig ∧
      r = { orig with probability := g.probability } := by
  unfold mergeGroupOne at h
  split at h
  · cases h
  · split at h
    · cases h
    · injection h with h
      exact ⟨_, _, _, by assumption, by assumption, h.symm⟩

theorem mergeGroupOne_ok_of_key {lk : List (String × ProteinGroup)} {g : ProteinGroup}
    {a : String} {arest : List String} (hacc : g.accessions = a :: arest)
    (hk : ∃ v, (a, v) ∈ lk) : ∃ r, mergeGroupOne lk g = .ok r := by
  obtain ⟨w, hw⟩ := pyFind_isSome_of_key lk a hk
  refine ⟨{ w with probability := g.probability }, ?_⟩
  unfold mergeGroupOne
  rw [hacc]
  show (match pyFind lk a with
    | none => Except.error (Err.keyError a)
    | some orig => Except.ok { orig with probability := g.probability })
    = Except.ok { w with probability := g.probability }
  rw [hw]

theorem inferPG_canonical {cfg : Config} {m : TierMap} {pg g : ProteinGroup}
    {t : ETier} {a0 : String} {rest0 : List String}
    (hacc : pg.accessions = a0 :: rest0)
    (hok : inferProteinGroupDbInfo cfg m pg = .ok (t, g)) :
    ∃ gr, g.accessions = a0 :: gr := by
  unfold inferProteinGroupDbInfo at hok
  cases hg : cfg.groupFdr with
  | false =>
    rw [hg] at hok
    simp only [Bool.not_false, if_pos] at hok
    injection hok with hok
    injection hok with _ hok
    rw [← hok, hacc]
    exact ⟨rest0, rfl⟩
  | true =>
    rw [hg] at hok
    simp only [Bool.not_true] at hok
    rw [if_neg (by simp)] at hok
    rw [hacc] at hok
    injection hok with hok
    injection hok with h1 hok
    refine ⟨List.filter (fun a => decide (accTierG cfg m a = accTierG cfg m a0)) rest0, ?_⟩
    rw [← hok]
    show List.filter (fun a => decide (accTierG cfg m a = accTierG cfg m a0)) (a0 :: rest0)
      = a0 :: List.filter (fun a => decide (accTierG cfg m a = accTierG cfg m a0)) rest0
    rw [List.filter_cons_of_pos (by simp)]

/-- C8: during the merge each tier-local group is looked up by its first
(canonical) accession; a missing key fails the whole merge with the
`KeyError`, a successful merge copies only the probability statistic onto the
original pre-filter group object (accessions and any other payload stay the
original's), and when the tier-local groups come from the bucketizer applied
to the original (all-nonempty) group set of the lookup, every canonical key
is present, so the merge never fails. -/
theorem c8_group_writeback (cfg : Config) (m : TierMap) :
    (∀ (lk : List (String × ProteinGroup)) (g : ProteinGroup) (gs : List ProteinGroup)
       (a : String) (arest : List String), g.accessions = a :: arest →
       pyFind lk a = none → mergeGroups lk (g :: gs) = .error (.keyError a)) ∧
    (∀ (lk : List (String × ProteinGroup)) (gs rs : List ProteinGroup),
       mergeGroups lk gs = .ok rs →
       List.Forall₂ (fun g r => ∃ a arest orig, g.accessions = a :: arest ∧
         pyFind lk a = some orig ∧
         r = { orig with probability := g.probability }) gs rs) ∧
    (∀ (pgs : List ProteinGroup) (lk : List (String × ProteinGroup))
       (pairs : List (ETier × ProteinGroup)),
       (∀ pg ∈ pgs, pg.accessions ≠ []) → mkPgLookup pgs = .ok lk →
       bucketProteinGroups cfg m pgs = .ok pairs →
       ∀ (t : ETier) (f : ProteinGroup → ℚ),
         ∃ rs, mergeGroups lk ((dictGet pairs t).map (fun g =>
           { g with probability := f g })) = .ok rs) := by
  refine ⟨?_, ?_, ?_⟩
  · intro lk g gs a arest hacc hnone
    unfold mergeGroups
    rw [exMapM_cons]
    have hone : mergeGroupOne lk g = .error (.keyError a) := by
      unfold mergeGroupOne
      rw [hacc]
      show (match pyFind lk a with
        | none => Except.error (Err.keyError a)
        | some orig => Except.ok { orig with probability := g.probability })
        = Except.error (Err.keyError a)
      rw [hnone]
    rw [hone, exBind_err]
  · intro lk gs rs hok
    have hf := exMapM_ok_forall₂ (mergeGroupOne lk) gs rs hok
    exact List.Forall₂.imp (fun g r hr => mergeGroupOne_ok hr) hf
  · intro pgs lk pairs hne hlk hbk t f
    have hkey : ∀ g' ∈ (dictGet pairs t).map (fun g =>
        { g with probability := f g }), ∃ r, mergeGroupOne lk g' = .ok r := by
      intro g' hg'
      obtain ⟨g, hg, hg'eq⟩ := List.mem_map.mp hg'
      have hpr : (t, g) ∈ pairs := dictGet_mem hg
      unfold bucketProteinGroups at hbk
      by_cases hnp : cfg.nopgFdr
      · rw [if_pos hnp] at hbk
        injection hbk with hbk
        rw [← hbk] at hpr
        cases hpr
      · rw [if_neg hnp] at hbk
        have hf2 := exMapM_ok_forall₂ _ _ _ hbk
        obtain ⟨pg, hpg, hpgok⟩ := forall₂_mem_right hf2 hpr
        cases hacc : pg.accessions with
        | nil => exact absurd hacc (hne pg hpg)
        | cons a0 rest0 =>
          obtain ⟨gr, hgr⟩ := inferPG_canonical hacc hpgok
          have hglk := exMapM_ok_forall₂ pgLookupEntry pgs lk hlk
          obtain ⟨pr, hprlk, hprok⟩ := forall₂_mem_left hglk hpg
          have hpr' : pr = (a0, pg) := by
            unfold pgLookupEntry at hprok
            rw [hacc] at hprok
            injection hprok with h1
            exact h1.symm
          have hacc' : g'.accessions = a0 :: gr := by
            rw [← hg'eq]
            exact hgr
          exact mergeGroupOne_ok_of_key hacc' ⟨pg, by rw [← hpr']; exact hprlk⟩
    obtain ⟨rs, hrs, _⟩ := exMapM_ok_of_forall (R := fun _ _ => True)
      (mergeGroupOne lk) _ (fun g' hg' => by
        obtain ⟨r, hr⟩ := hkey g' hg'
        exact ⟨r, hr, trivial⟩)
    exact ⟨rs, hrs⟩

/-- Closed instance of `c8_group_writeback`: a concrete missing-key merge
fails with the key error, and a concrete bucketizer-derived merge succeeds. -/
theorem c8_witness :
    mergeGroups [] [{ probability := 1, accessions := ["X"] }]
      = .error (.keyError "X") ∧
    ∃ rs, mergeGroups [("A", ({ probability := 1, accessions := ["A", "B"] } : ProteinGroup))]
      ((dictGet [((⊤ : ETier), ({ probability := 1, accessions := ["A", "B"] } : ProteinGroup))] ⊤).map
        (fun g => { g with probability := (0 : ℚ) })) = .ok rs := by
  constructor
  · exact (c8_group_writeback cfgG []).1 [] _ [] "X" [] rfl rfl
  · refine (c8_group_writeback cfgG []).2.2
      [({ probability := 1, accessions := ["A", "B"] } : ProteinGroup)]
      [("A", ({ probability := 1, accessions := ["A", "B"] } : ProteinGroup))]
      [((⊤ : ETier), ({ probability := 1, accessions := ["A", "B"] } : ProteinGroup))]
      ?_ ?_ ?_ ⊤ (fun _ => 0)
    · intro pg hpg
      rcases List.mem_cons.mp hpg with rfl | h
      · intro h
        cases h
      · cases h
    · rfl
    · rfl

/-- C3: with grouped FDR, a protein group with a non-empty accession list is
classified at the resolved tier of its *first* accession; the returned fresh
group keeps the probability and exactly the original-order accessions whose
resolved tier equals that tier; and the bucketizer appends the filtered group
to precisely that one tier's bucket, leaving every other tier's bucket as it
would be without the group. -/
theorem c3_group_first_accession_tier (cfg : Config) (m : TierMap)
    (pg : ProteinGroup) (a0 : String) (accRest : List String)
    (hg : cfg.groupFdr = true) (hnp : cfg.nopgFdr = false)
    (hacc : pg.accessions = a0 :: accRest)
    (gs1 gs2 : List ProteinGroup) (P1 P2 : List (ETier × ProteinGroup))
    (hb1 : bucketProteinGroups cfg m gs1 = .ok P1)
    (hb2 : bucketProteinGroups cfg m gs2 = .ok P2) :
    ∃ f, inferProteinGroupDbInfo cfg m pg = .ok (accTierG cfg m a0, f) ∧
      f.probability = pg.probability ∧
      f.accessions = pg.accessions.filter
        (fun a => decide (accTierG cfg m a = accTierG cfg m a0)) ∧
      bucketProteinGroups cfg m (gs1 ++ pg :: gs2)
        = .ok (P1 ++ (accTierG cfg m a0, f) :: P2) ∧
      ∀ t, dictGet (P1 ++ (accTierG cfg m a0, f) :: P2) t =
        dictGet P1 t ++
          (if accTierG cfg m a0 = t then [f] else []) ++ dictGet P2 t := by
  refine ⟨{ probability := pg.probability,
            accessions := (a0 :: accRest).filter
              (fun a => decide (accTierG cfg m a = accTierG cfg m a0)) },
          ?_, rfl, ?_, ?_, ?_⟩
  · unfold inferProteinGroupDbInfo
    rw [hg]
    simp only [Bool.not_true]
    rw [if_neg (by simp), hacc]
  · rw [hacc]
  · have hinf : inferProteinGroupDbInfo cfg m pg = .ok (accTierG cfg m a0,
        { probability := pg.probability,
          accessions := (a0 :: accRest).filter
            (fun a => decide (accTierG cfg m a = accTierG cfg m a0)) }) := by
      unfold inferProteinGroupDbInfo
      rw [hg]
      simp only [Bool.not_true]
      rw [if_neg (by simp), hacc]
    unfold bucketProteinGroups at hb1 hb2 ⊢
    rw [hnp] at hb1 hb2 ⊢
    rw [if_neg (by simp)] at hb1 hb2 ⊢
    have h2 : exMapM (inferProteinGroupDbInfo cfg m) (pg :: gs2)
        = .ok ((accTierG cfg m a0,
            { probability := pg.probability,
              accessions := (a0 :: accRest).filter
                (fun a => decide (accTierG cfg m a = accTierG cfg m a0)) }) :: P2) := by
      rw [exMapM_cons, hinf, exBind_ok, hb2, exBind_ok]
    exact exMapM_append_ok _ hb1 h2
  · intro t
    rw [dictGet_append, dictGet_cons]
    by_cases ht : accTierG cfg m a0 = t
    · rw [if_pos ht, if_pos ht]
      simp
    · rw [if_neg ht, if_neg ht]
      simp

/-- Closed instance of `c3_group_first_accession_tier`: a concrete group with
tiers `(1, 1, 2)` filters to its first two accessions in tier 1's bucket and
is absent from tier 2's bucket. -/
theorem c3_witness :
    ∃ f, inferProteinGroupDbInfo cfgG [("A", 1), ("B", 1), ("C", 2)]
        { probability := 1, accessions := ["A", "B", "C"] }
        = .ok (((1 : ℤ) : ETier), f) ∧
      f.accessions = ["A", "B"] ∧
      bucketProteinGroups cfgG [("A", 1), ("B", 1), ("C", 2)]
        [{ probability := 1, accessions := ["A", "B", "C"] }]
        = .ok [(((1 : ℤ) : ETier), f)] ∧
      dictGet [(((1 : ℤ) : ETier), f)] ((2 : ℤ) : ETier) = [] := by
  have hacc1 : accTierG cfgG [("A", 1), ("B", 1), ("C", 2)] "A" = ((1 : ℤ) : ETier) := by
    rfl
  obtain ⟨f, hinf, hprob, haccs, hbk, hget⟩ :=
    c3_group_first_accession_tier cfgG [("A", 1), ("B", 1), ("C", 2)]
      { probability := 1, accessions := ["A", "B", "C"] } "A" ["B", "C"]
      rfl rfl rfl [] [] [] [] rfl rfl
  rw [hacc1] at hinf hbk hget
  refine ⟨f, hinf, ?_, by simpa using hbk, ?_⟩
  · rw [haccs]
    rfl
  · have := hget ((2 : ℤ) : ETier)
    simpa using this

theorem eviKey_group {cfg : Config} (m : TierMap) (acc : String)
    (hg : cfg.groupFdr = true) :
    eviKey cfg m acc = (bN (isTargetAcc cfg acc), accTierG cfg m acc) := by
  unfold eviKey
  rw [hg]
  simp

theorem accTierG_contam {cfg : Config} (m : TierMap) {acc : String}
    (h : isContam cfg acc = true) : accTierG cfg m acc = ((-1 : ℤ) : ETier) := by
  unfold accTierG
  rw [if_pos h]

/-- Counterexample to C1 as stated: for the hit with evidences
`[A (target), rev_B (decoy)]` the claim's ascending sort on
`(is_decoy, resolved_tier)` would keep the target `A` first and annotate
`target`; the code sorts on `(is_target, tier)` ascending, which puts the
decoy `rev_B` first and annotates `decoy`. -/
theorem c1_counterexample :
    inferPsmDbInfo cfgG [] pepAB
      = .ok { hits := [{ score := 1, evidences := [⟨"rev_B"⟩, ⟨"A"⟩],
                         targetDecoy := some "decoy", tier := some ⊤ }] } ∧
    ([(⟨"rev_B"⟩ : Evidence), ⟨"A"⟩] ≠ [(⟨"A"⟩ : Evidence), ⟨"rev_B"⟩]) ∧
    some "decoy" ≠ some "target" := by
  refine ⟨by rfl, by decide, by decide⟩

/-- C1 (amended): per evidence the classifier builds the tuple
`(is_target, resolved_tier)` — not `(is_decoy, …)` — and stable-sorts the
evidences ascending by it, so *decoys precede targets* and, within each
class, lower tiers precede higher ones (contaminant `-1` before numbered
tiers before unmapped `∞`); the hit's final `target_decoy`/`tier` come from
the first evidence after sorting, and the hit's evidence list is permanently
replaced by the sorted order — a permutation of the original evidences, none
duplicated or dropped. -/
theorem c1_classification_sort (cfg : Config) (m : TierMap) (p : PeptideId)
    (hall : ∀ h ∈ p.hits, h.evidences ≠ []) :
    ∃ q, inferPsmDbInfo cfg m p = .ok q ∧
      List.Forall₂ (fun (h h' : PeptideHit) =>
        h'.evidences.Perm h.evidences ∧
        List.Sorted (evRel cfg m) h'.evidences ∧
        h'.score = h.score ∧
        ∃ e0 rest, h'.evidences = e0 :: rest ∧
          h'.targetDecoy
            = some (if isTargetAcc cfg e0.accession then "target" else "decoy") ∧
          h'.tier = (if cfg.groupFdr then some (accTierG cfg m e0.accession)
                     else h.tier)) p.hits q.hits := by
  obtain ⟨ys, hys, hR⟩ := exMapM_ok_of_forall
    (R := fun (h h' : PeptideHit) =>
      h'.evidences.Perm h.evidences ∧
      List.Sorted (evRel cfg m) h'.evidences ∧
      h'.score = h.score ∧
      ∃ e0 rest, h'.evidences = e0 :: rest ∧
        h'.targetDecoy
          = some (if isTargetAcc cfg e0.accession then "target" else "decoy") ∧
        h'.tier = (if cfg.groupFdr then some (accTierG cfg m e0.accession)
                   else h.tier))
    (inferPsmHit cfg m) p.hits (fun h hh => by
      obtain ⟨e0, rest, hs, hok⟩ := @inferPsmHit_ok cfg m _ (hall h hh)
      refine ⟨_, hok, ?_, ?_, rfl, e0, rest, rfl, rfl, rfl⟩
      · show (e0 :: rest).Perm h.evidences
        rw [← hs]
        exact List.perm_insertionSort _ _
      · show List.Sorted (evRel cfg m) (e0 :: rest)
        rw [← hs]
        exact List.sorted_insertionSort _ _)
  refine ⟨⟨ys⟩, ?_, hR⟩
  rw [inferPsmDbInfo_eq, hys, exBind_ok]

/-- Closed instance of `c1_classification_sort` at the counterexample input:
the precondition holds and the amended description applies. -/
theorem c1_witness :
    (∀ h ∈ pepAB.hits, h.evidences ≠ []) ∧
    ∃ q, inferPsmDbInfo cfgG [] pepAB = .ok q ∧
      List.Forall₂ (fun (h h' : PeptideHit) =>
        h'.evidences.Perm h.evidences ∧
        List.Sorted (evRel cfgG []) h'.evidences ∧
        h'.score = h.score ∧
        ∃ e0 rest, h'.evidences = e0 :: rest ∧
          h'.targetDecoy
            = some (if isTargetAcc cfgG e0.accession then "target" else "decoy") ∧
          h'.tier = (if cfgG.groupFdr then some (accTierG cfgG [] e0.accession)
                     else h.tier)) pepAB.hits q.hits := by
  have hall : ∀ h ∈ pepAB.hits, h.evidences ≠ [] := by
    intro h hh
    rw [pepAB] at hh
    rcases List.mem_cons.mp hh with rfl | hh'
    · intro he
      cases he
    · cases hh'
  exact ⟨hall, c1_classification_sort cfgG [] pepAB hall⟩

/-- Counterexample to C2 as stated: the hit's evidences include the (target)
contaminant `contam_X`, yet because a plain decoy evidence `rev_Y` is also
present, the `(is_target, tier)` sort ranks the decoy first and the assigned
tier is `∞` (the decoy's), not `-1`. -/
theorem c2_counterexample :
    inferPsmDbInfo cfgG [] pepCY
      = .ok { hits := [{ score := 1, evidences := [⟨"rev_Y"⟩, ⟨"contam_X"⟩],
                         targetDecoy := some "decoy", tier := some ⊤ }] } ∧
    isContam cfgG "contam_X" = true ∧
    some (⊤ : ETier) ≠ some ((-1 : ℤ) : ETier) := by
  refine ⟨by rfl, by rfl, by decide⟩

/-- C2 (amended): with grouped FDR and non-negative tier-map values (as the
tier resolver produces), a hit's tier is `-1` whenever its evidences include
a contaminant whose target/decoy status matches the best-ranked class: a
decoy contaminant, or — when no evidence is a decoy — any contaminant. The
tiers of the remaining evidences are then irrelevant. -/
theorem c2_contaminant_tier (cfg : Config) (m : TierMap) (h h' : PeptideHit)
    (hg : cfg.groupFdr = true) (hm : ∀ pr ∈ m, 0 ≤ pr.2)
    (hcont : (∃ c ∈ h.evidences, isContam cfg c.accession = true ∧
                isTargetAcc cfg c.accession = false) ∨
             ((∀ e ∈ h.evidences, isTargetAcc cfg e.accession = true) ∧
              ∃ c ∈ h.evidences, isContam cfg c.accession = true))
    (hok : inferPsmHit cfg m h = .ok h') :
    h'.tier = some ((-1 : ℤ) : ETier) := by
  rcases hcont with ⟨c, hc, hcc, hct⟩ | ⟨hall, c, hc, hcc⟩
  · have hkc : eviKey cfg m c.accession = (0, ((-1 : ℤ) : ETier)) := by
      rw [eviKey_group m _ hg, hct, accTierG_contam m hcc]
      rfl
    have hmin : ∀ e ∈ h.evidences,
        keyLe (eviKey cfg m c.accession) (eviKey cfg m e.accession) := by
      intro e _
      rw [hkc, eviKey_group m _ hg]
      cases ht : isTargetAcc cfg e.accession with
      | false =>
        refine Or.inr ⟨rfl, ?_⟩
        exact accTierG_ge hm e.accession
      | true => exact Or.inl (by norm_num [bN])
    have := inferPsmHit_tier_of_min hg hc hmin hok
    rw [this, hkc]
  · have hkc : eviKey cfg m c.accession = (1, ((-1 : ℤ) : ETier)) := by
      rw [eviKey_group m _ hg, hall c hc, accTierG_contam m hcc]
      rfl
    have hmin : ∀ e ∈ h.evidences,
        keyLe (eviKey cfg m c.accession) (eviKey cfg m e.accession) := by
      intro e he
      rw [hkc, eviKey_group m _ hg, hall e he]
      refine Or.inr ⟨rfl, ?_⟩
      exact accTierG_ge hm e.accession
    have := inferPsmHit_tier_of_min hg hc hmin hok
    rw [this, hkc]

/-- Closed instance of `c2_contaminant_tier`: a decoy-contaminant evidence
forces tier `-1` on a concrete hit despite a tier-2 sibling evidence. -/
theorem c2_witness :
    ∃ h', inferPsmHit cfgG [("A", 2)]
        { score := 1, evidences := [⟨"A"⟩, ⟨"rev_contam_X"⟩],
          targetDecoy := none, tier := none } = .ok h' ∧
      h'.tier = some ((-1 : ℤ) : ETier) := by
  have hok : inferPsmHit cfgG [("A", 2)]
      { score := 1, evidences := [⟨"A"⟩, ⟨"rev_contam_X"⟩],
        targetDecoy := none, tier := none }
      = .ok { score := 1, evidences := [⟨"rev_contam_X"⟩, ⟨"A"⟩],
              targetDecoy := some "decoy", tier := some ((-1 : ℤ) : ETier) } := by
    rfl
  refine ⟨_, hok, ?_⟩
  refine c2_contaminant_tier cfgG [("A", 2)] _ _ rfl ?_ ?_ hok
  · intro pr hpr
    rcases List.mem_cons.mp hpr with rfl | h
    · norm_num
    · cases h
  · refine Or.inl ⟨⟨"rev_contam_X"⟩, ?_, by rfl, by rfl⟩
    exact List.mem_cons_of_mem _ (List.mem_cons_self _ _)

theorem sortTiers_perm (ts : List ETier) : (sortTiers ts).Perm ts :=
  List.perm_insertionSort _ _

theorem sortTiers_mem (ts : List ETier) (t : ETier) : t ∈ sortTiers ts ↔ t ∈ ts :=
  (sortTiers_perm ts).mem_iff

theorem sortTiers_sorted (ts : List ETier) : List.Sorted (fun a b => a ≤ b) (sortTiers ts) :=
  List.sorted_insertionSort _ _

theorem sortTiers_sorted_lt {ts : List ETier} (h : ts.Nodup) :
    List.Sorted (fun a b => a < b) (sortTiers ts) := by
  have hnd : (sortTiers ts).Nodup := (sortTiers_perm ts).nodup_iff.mpr h
  have hle := sortTiers_sorted ts
  exact (List.Pairwise.and hle hnd).imp (fun hab => lt_of_le_of_ne hab.1 hab.2)

theorem collectTiers_mem {A B C : Type} (pp : List (ETier × A)) (hp : List (ETier × B))
    (gp : List (ETier × C)) (t : ETier) :
    t ∈ collectTiers pp hp gp ↔
      (t ∈ dictKeys pp ∨ t ∈ dictKeys hp ∨ t ∈ dictKeys gp) := by
  unfold collectTiers
  rw [List.mem_dedup, List.mem_append, List.mem_append, or_assoc]

theorem collectTiers_nodup {A B C : Type} (pp : List (ETier × A)) (hp : List (ETier × B))
    (gp : List (ETier × C)) : (collectTiers pp hp gp).Nodup :=
  List.nodup_dedup _

theorem processTier_eq (o : FdrOracle) (cfg : Config) (lk : List (String × ProteinGroup))
    (pp : List (ETier × PeptideId)) (hp : List (ETier × ProteinHit))
    (gp : List (ETier × ProteinGroup)) (t : ETier) :
    processTier o cfg lk pp hp gp t =
      ((if cfg.nopgFdr then pure [] else mergeGroups lk ((dictGet gp t).map (fun g =>
          { g with probability := o.pickedGrp (dictGet hp t) (dictGet gp t) g })))
        >>= fun grpsOut =>
       (if cfg.nopgFdr then pure [] else mergeGroups lk ((dictGet gp t).map (fun g =>
          { g with probability := o.pickedIp (dictGet hp t) (dictGet gp t) g })))
        >>= fun ipsOut =>
       Except.ok ({ peps := (dictGet pp t).map (o.pepQ (dictGet pp t)),
                    hits := (if cfg.nopgFdr
                             then (dictGet hp t).map (o.basicHit (dictGet hp t))
                             else (dictGet hp t).map
                               (o.pickedHit (dictGet hp t) (dictGet gp t))),
                    grps := grpsOut, ips := ipsOut } : TierOutput)) := by
  unfold processTier
  cases hnp : cfg.nopgFdr <;> rfl

theorem processTier_ok_parts {o : FdrOracle} {cfg : Config}
    {lk : List (String × ProteinGroup)} {pp : List (ETier × PeptideId)}
    {hp : List (ETier × ProteinHit)} {gp : List (ETier × ProteinGroup)}
    {t : ETier} {u : TierOutput} (h : processTier o cfg lk pp hp gp t = .ok u) :
    u.peps = (dictGet pp t).map (o.pepQ (dictGet pp t)) ∧
    u.hits = (if cfg.nopgFdr then (dictGet hp t).map (o.basicHit (dictGet hp t))
              else (dictGet hp t).map (o.pickedHit (dictGet hp t) (dictGet gp t))) := by
  rw [processTier_eq] at h
  cases hX : (if cfg.nopgFdr then pure [] else mergeGroups lk ((dictGet gp t).map (fun g =>
      { g with probability := o.pickedGrp (dictGet hp t) (dictGet gp t) g }))) with
  | error e => rw [hX, exBind_err] at h; cases h
  | ok g1 =>
    rw [hX, exBind_ok] at h
    cases hY : (if cfg.nopgFdr then pure [] else mergeGroups lk ((dictGet gp t).map (fun g =>
        { g with probability := o.pickedIp (dictGet hp t) (dictGet gp t) g }))) with
    | error e => rw [hY, exBind_err] at h; cases h
    | ok g2 =>
      rw [hY, exBind_ok] at h
      injection h with h
      rw [← h]
      exact ⟨rfl, rfl⟩

/-- C5: the set of tiers processed is exactly the union of the keys of the
peptide, protein-hit, and protein-group bucket dicts; they are traversed in
strictly ascending order; and a successful merge's peptide sequence is the
concatenation, in that ascending tier order, of the per-tier peptide buckets
(each annotated record-by-record by the tier's FDR pass — never re-sorted). -/
theorem c5_tier_traversal (o : FdrOracle) (cfg : Config)
    (pp : List (ETier × PeptideId)) (hp : List (ETier × ProteinHit))
    (gp : List (ETier × ProteinGroup)) (lk : List (String × ProteinGroup))
    (pids : List LoadedProteinId) :
    (∀ t, t ∈ processedTiers pp hp gp ↔
      (t ∈ dictKeys pp ∨ t ∈ dictKeys hp ∨ t ∈ dictKeys gp)) ∧
    List.Sorted (fun a b => a < b) (processedTiers pp hp gp) ∧
    (∀ out, applyFdrToTiers o cfg (collectTiers pp hp gp) pp hp gp lk pids = .ok out →
      out.2 = ((processedTiers pp hp gp).map (fun t =>
        (dictGet pp t).map (o.pepQ (dictGet pp t)))).flatten) := by
  refine ⟨?_, ?_, ?_⟩
  · intro t
    unfold processedTiers
    rw [sortTiers_mem]
    exact collectTiers_mem pp hp gp t
  · exact sortTiers_sorted_lt (collectTiers_nodup pp hp gp)
  · intro out hok
    rw [applyFdrToTiers_eq] at hok
    cases hx : exMapM (processTier o cfg lk pp hp gp)
        (sortTiers (collectTiers pp hp gp)) with
    | error e => rw [hx, exBind_err] at hok; cases hok
    | ok outs =>
      rw [hx, exBind_ok] at hok
      cases pids with
      | nil => cases hok
      | cons ref rest =>
        injection hok with hok
        have hf := exMapM_ok_forall₂ _ _ _ hx
        have hf' : List.Forall₂ (fun t u =>
            TierOutput.peps u = (dictGet pp t).map (o.pepQ (dictGet pp t)))
            (sortTiers (collectTiers pp hp gp)) outs := by
          refine hf.imp ?_
          intro t u h
          exact (processTier_ok_parts h).1
        have hmap := forall₂_map_eq hf'
        rw [← hok]
        show (outs.map (fun u => u.peps)).flatten = _
        rw [hmap]
        rfl

/-- Closed instance of `c5_tier_traversal` on a concrete one-tier run. -/
theorem c5_witness :
    ((0 : ETier) ∈ processedTiers [(((0 : ℤ) : ETier), pepA)]
      ([] : List (ETier × ProteinHit)) ([] : List (ETier × ProteinGroup))) ∧
    ∃ out, applyFdrToTiers idOracle cfgU
        (collectTiers [(((0 : ℤ) : ETier), pepA)] ([] : List (ETier × ProteinHit))
          ([] : List (ETier × ProteinGroup)))
        [(((0 : ℤ) : ETier), pepA)] [] [] [] [pidA] = .ok out ∧
      out.2 = ((processedTiers [(((0 : ℤ) : ETier), pepA)]
          ([] : List (ETier × ProteinHit)) ([] : List (ETier × ProteinGroup))).map
        (fun t => (dictGet [(((0 : ℤ) : ETier), pepA)] t).map
          (idOracle.pepQ (dictGet [(((0 : ℤ) : ETier), pepA)] t)))).flatten := by
  constructor
  · refine ((c5_tier_traversal idOracle cfgU [(((0 : ℤ) : ETier), pepA)] [] [] []
      [pidA]).1 (0 : ETier)).mpr ?_
    refine Or.inl ?_
    rw [dictKeys_mem]
    exact ⟨(((0 : ℤ) : ETier), pepA), List.mem_cons_self _ _, rfl⟩
  · have hok : applyFdrToTiers idOracle cfgU
        (collectTiers [(((0 : ℤ) : ETier), pepA)] ([] : List (ETier × ProteinHit))
          ([] : List (ETier × ProteinGroup)))
        [(((0 : ℤ) : ETier), pepA)] [] [] [] [pidA]
        = .ok ([{ meta := pidA.meta, hits := [], groups := [], indistProts := [] }],
               [pepA]) := by rfl
    exact ⟨_, hok, (c5_tier_traversal idOracle cfgU [(((0 : ℤ) : ETier), pepA)]
      [] [] [] [pidA]).2.2 _ hok⟩

theorem dictGet_map_zero {X : Type} (l : List X) :
    dictGet (l.map (fun x => (((0 : ℤ) : ETier), x))) ((0 : ℤ) : ETier) = l := by
  rw [dictGet_all_keys]
  · rw [List.map_map]
    exact List.map_id _
  · intro pr hpr
    obtain ⟨x, _, rfl⟩ := List.mem_map.mp hpr
    rfl

theorem dictKeys_map_nil_iff {X : Type} (pairs : List (ETier × X)) :
    dictKeys pairs = [] ↔ pairs = [] := by
  unfold dictKeys
  rw [List.dedup_eq_nil, List.map_eq_nil_iff]

theorem collectTiers_zero_nonempty {A B C : Type} (l1 : List A) (l2 : List B)
    (l3 : List C) (hne : ¬(l1 = [] ∧ l2 = [] ∧ l3 = [])) :
    collectTiers (l1.map (fun x => (((0 : ℤ) : ETier), x)))
      (l2.map (fun x => (((0 : ℤ) : ETier), x)))
      (l3.map (fun x => (((0 : ℤ) : ETier), x))) = [((0 : ℤ) : ETier)] := by
  unfold collectTiers
  apply dedup_const
  · intro hcat
    rcases List.append_eq_nil.mp hcat with ⟨h12, h3⟩
    rcases List.append_eq_nil.mp h12 with ⟨h1, h2⟩
    refine hne ⟨?_, ?_, ?_⟩
    · have := (dictKeys_map_nil_iff _).mp h1
      exact List.map_eq_nil_iff.mp this
    · have := (dictKeys_map_nil_iff _).mp h2
      exact List.map_eq_nil_iff.mp this
    · have := (dictKeys_map_nil_iff _).mp h3
      exact List.map_eq_nil_iff.mp this
  · intro x hx
    rcases List.mem_append.mp hx with hx' | h3
    · rcases List.mem_append.mp hx' with h1 | h2
      · obtain ⟨pr, hpr, rfl⟩ := (dictKeys_mem _ _).mp h1
        obtain ⟨y, _, rfl⟩ := List.mem_map.mp hpr
        rfl
      · obtain ⟨pr, hpr, rfl⟩ := (dictKeys_mem _ _).mp h2
        obtain ⟨y, _, rfl⟩ := List.mem_map.mp hpr
        rfl
    · obtain ⟨pr, hpr, rfl⟩ := (dictKeys_mem _ _).mp h3
      obtain ⟨y, _, rfl⟩ := List.mem_map.mp hpr
      rfl

theorem applyFdr_single_bucket (o : FdrOracle) (cfg : Config)
    (lk : List (String × ProteinGroup)) (pids : List LoadedProteinId)
    (clPeps : List PeptideId) (hitsAll : List ProteinHit)
    (grpsAll : List ProteinGroup) :
    applyFdrToTiers o cfg
      (collectTiers (clPeps.map (fun q => (((0 : ℤ) : ETier), q)))
        (hitsAll.map (fun h => (((0 : ℤ) : ETier), h)))
        (grpsAll.map (fun g => (((0 : ℤ) : ETier), g))))
      (clPeps.map (fun q => (((0 : ℤ) : ETier), q)))
      (hitsAll.map (fun h => (((0 : ℤ) : ETier), h)))
      (grpsAll.map (fun g => (((0 : ℤ) : ETier), g))) lk pids =
    ((if cfg.nopgFdr then pure [] else mergeGroups lk (grpsAll.map (fun g =>
        { g with probability := o.pickedGrp hitsAll grpsAll g })))
      >>= fun grpsOut =>
     (if cfg.nopgFdr then pure [] else mergeGroups lk (grpsAll.map (fun g =>
        { g with probability := o.pickedIp hitsAll grpsAll g })))
      >>= fun ipsOut =>
     match pids with
     | [] => Except.error Err.inputError
     | ref :: _ =>
       Except.ok ([{ meta := ref.meta,
                     hits := (if cfg.nopgFdr then hitsAll.map (o.basicHit hitsAll)
                              else hitsAll.map (o.pickedHit hitsAll grpsAll)),
                     groups := grpsOut, indistProts := ipsOut }],
                  clPeps.map (o.pepQ clPeps))) := by
  by_cases hz : clPeps = [] ∧ hitsAll = [] ∧ grpsAll = []
  · obtain ⟨h1, h2, h3⟩ := hz
    subst h1
    subst h2
    subst h3
    cases hnp : cfg.nopgFdr <;> cases pids <;> rfl
  · have hK := collectTiers_zero_nonempty clPeps hitsAll grpsAll hz
    rw [applyFdrToTiers_eq, hK]
    have hsort : sortTiers [((0 : ℤ) : ETier)] = [((0 : ℤ) : ETier)] := rfl
    rw [hsort, exMapM_cons, exMapM_nil, processTier_eq,
      dictGet_map_zero, dictGet_map_zero, dictGet_map_zero]
    cases hnp : cfg.nopgFdr with
    | true => cases pids <;> simp [exBind_ok]
    | false =>
      cases hm1 : mergeGroups lk (grpsAll.map (fun g =>
          { g with probability := o.pickedGrp hitsAll grpsAll g })) with
      | error e => cases pids <;> simp [hm1, exBind_err, exBind_ok]
      | ok g1 =>
        cases hm2 : mergeGroups lk (grpsAll.map (fun g =>
            { g with probability := o.pickedIp hitsAll grpsAll g })) with
        | error e => cases pids <;> simp [hm1, hm2, exBind_err, exBind_ok]
        | ok g2 => cases pids <;> simp [hm1, hm2, exBind_ok]

theorem pepTierKey_ungrouped {cfg : Config} (hg : cfg.groupFdr = false)
    (q : PeptideId) : pepTierKey cfg q = ((0 : ℤ) : ETier) := by
  unfold pepTierKey
  cases hq : q.hits with
  | nil => rfl
  | cons h hs => rw [hg]; simp

theorem bucketPeptideIds_eq (cfg : Config) (m : TierMap) (peps : List PeptideId) :
    bucketPeptideIds cfg m peps =
      (exMapM (inferPsmDbInfo cfg m) peps).map
        (List.map (fun q => (pepTierKey cfg q, q))) :=
  exMapM_pair _ _ _

theorem bucketHits_ungrouped {cfg : Config} (m : TierMap)
    (pids : List LoadedProteinId) (hg : cfg.groupFdr = false) :
    bucketProteinHits cfg m pids =
      ((pids.flatMap (fun pid => pid.hits)).map (inferProteinDbInfo cfg m)).map
        (fun h => (((0 : ℤ) : ETier), h)) := by
  unfold bucketProteinHits
  rw [List.map_map]
  refine List.map_congr_left ?_
  intro h0 _
  rw [hg]
  rfl

theorem inferPG_ungrouped {cfg : Config} (m : TierMap) (pg : ProteinGroup)
    (hg : cfg.groupFdr = false) :
    inferProteinGroupDbInfo cfg m pg = .ok (((0 : ℤ) : ETier), pg) := by
  unfold inferProteinGroupDbInfo
  rw [hg]
  rfl

theorem bucketGroups_ungrouped {cfg : Config} (m : TierMap)
    (pgs : List ProteinGroup) (hg : cfg.groupFdr = false) :
    bucketProteinGroups cfg m pgs =
      .ok ((if cfg.nopgFdr then [] else pgs).map (fun g => (((0 : ℤ) : ETier), g))) := by
  unfold bucketProteinGroups
  cases hnp : cfg.nopgFdr with
  | true => rfl
  | false =>
    simp only [Bool.false_eq_true, if_false]
    exact exMapM_of_ok_fun _ _ _ (fun pg _ => inferPG_ungrouped m pg hg)

theorem runEngine_eq (o : FdrOracle) (cfg : Config) (m : TierMap)
    (px : Option (List ProteinGroup)) (pids : List LoadedProteinId)
    (peps : List PeptideId) :
    runEngine o cfg m px pids peps =
      if peps.isEmpty && pids.isEmpty then .error .inputError
      else
        (resolveProteinGroups cfg px pids >>= fun r =>
         bucketPeptideIds cfg m peps >>= fun pp =>
         bucketProteinGroups cfg m r.1 >>= fun gp =>
         applyFdrToTiers o cfg (collectTiers pp (bucketProteinHits cfg m pids) gp)
           pp (bucketProteinHits cfg m pids) gp r.2 pids) := rfl

theorem runEngine_norm (o : FdrOracle) (cfg : Config) (m : TierMap)
    (px : Option (List ProteinGroup)) (pids : List LoadedProteinId)
    (peps : List PeptideId) (hg : cfg.groupFdr = false)
    (hc : (peps.isEmpty && pids.isEmpty) = false)
    {r : List ProteinGroup × List (String × ProteinGroup)}
    (hr : resolveProteinGroups cfg px pids = .ok r)
    {clPeps : List PeptideId}
    (hcl : exMapM (inferPsmDbInfo cfg m) peps = .ok clPeps) :
    runEngine o cfg m px pids peps =
      ((if cfg.nopgFdr then pure [] else mergeGroups r.2
          ((if cfg.nopgFdr then [] else r.1).map (fun g =>
            { g with probability := (o.pickedGrp
                ((pids.flatMap (fun pid => pid.hits)).map (inferProteinDbInfo cfg m))
                (if cfg.nopgFdr then [] else r.1) g) })))
        >>= fun grpsOut =>
       (if cfg.nopgFdr then pure [] else mergeGroups r.2
          ((if cfg.nopgFdr then [] else r.1).map (fun g =>
            { g with probability := (o.pickedIp
                ((pids.flatMap (fun pid => pid.hits)).map (inferProteinDbInfo cfg m))
                (if cfg.nopgFdr then [] else r.1) g) })))
        >>= fun ipsOut =>
       match pids with
       | [] => Except.error Err.inputError
       | ref :: _ =>
         Except.ok ([{ meta := ref.meta,
                       hits := (if cfg.nopgFdr
                                then ((pids.flatMap (fun pid => pid.hits)).map
                                  (inferProteinDbInfo cfg m)).map
                                  (o.basicHit ((pids.flatMap (fun pid => pid.hits)).map
                                    (inferProteinDbInfo cfg m)))
                                else ((pids.flatMap (fun pid => pid.hits)).map
                                  (inferProteinDbInfo cfg m)).map
                                  (o.pickedHit ((pids.flatMap (fun pid => pid.hits)).map
                                    (inferProteinDbInfo cfg m))
                                    (if cfg.nopgFdr then [] else r.1))),
                       groups := grpsOut, indistProts := ipsOut }],
                    clPeps.map (o.pepQ clPeps))) := by
  rw [runEngine_eq, hc]
  simp only [Bool.false_eq_true, if_false]
  rw [hr, exBind_ok]
  have hb : bucketPeptideIds cfg m peps
      = .ok (clPeps.map (fun q => (((0 : ℤ) : ETier), q))) := by
    rw [bucketPeptideIds_eq, hcl, exMap_ok]
    congr 1
    refine List.map_congr_left ?_
    intro q _
    rw [pepTierKey_ungrouped hg]
  rw [hb, exBind_ok, bucketGroups_ungrouped m r.1 hg, exBind_ok,
    bucketHits_ungrouped m pids hg]
  exact applyFdr_single_bucket o cfg r.2 pids clPeps
    ((pids.flatMap (fun pid => pid.hits)).map (inferProteinDbInfo cfg m))
    (if cfg.nopgFdr then [] else r.1)

theorem singlePassRun_norm (o : FdrOracle) (cfg : Config) (m : TierMap)
    (px : Option (List ProteinGroup)) (pids : List LoadedProteinId)
    (peps : List PeptideId)
    (hc : (peps.isEmpty && pids.isEmpty) = false)
    {r : List ProteinGroup × List (String × ProteinGroup)}
    (hr : resolveProteinGroups cfg px pids = .ok r)
    {clPeps : List PeptideId}
    (hcl : exMapM (inferPsmDbInfo cfg m) peps = .ok clPeps) :
    singlePassRun o cfg m px pids peps =
      ((if cfg.nopgFdr then pure [] else mergeGroups r.2
          ((if cfg.nopgFdr then [] else r.1).map (fun g =>
            { g with probability := (o.pickedGrp
                ((pids.flatMap (fun pid => pid.hits)).map (inferProteinDbInfo cfg m))
                (if cfg.nopgFdr then [] else r.1) g) })))
        >>= fun grpsOut =>
       (if cfg.nopgFdr then pure [] else mergeGroups r.2
          ((if cfg.nopgFdr then [] else r.1).map (fun g =>
            { g with probability := (o.pickedIp
                ((pids.flatMap (fun pid => pid.hits)).map (inferProteinDbInfo cfg m))
                (if cfg.nopgFdr then [] else r.1) g) })))
        >>= fun ipsOut =>
       match pids with
       | [] => Except.error Err.inputError
       | ref :: _ =>
         Except.ok ([{ meta := ref.meta,
                       hits := (if cfg.nopgFdr
                                then ((pids.flatMap (fun pid => pid.hits)).map
                                  (inferProteinDbInfo cfg m)).map
                                  (o.basicHit ((pids.flatMap (fun pid => pid.hits)).map
                                    (inferProteinDbInfo cfg m)))
                                else ((pids.flatMap (fun pid => pid.hits)).map
                                  (inferProteinDbInfo cfg m)).map
                                  (o.pickedHit ((pids.flatMap (fun pid => pid.hits)).map
                                    (inferProteinDbInfo cfg m))
                                    (if cfg.nopgFdr then [] else r.1))),
                       groups := grpsOut, indistProts := ipsOut }],
                    clPeps.map (o.pepQ clPeps))) := by
  unfold singlePassRun
  rw [hc]
  simp only [Bool.false_eq_true, if_false]
  rw [hr, exBind_ok, hcl, exBind_ok]
  cases hnp : cfg.nopgFdr <;> rfl

theorem allKeysZero_props {X : Type} (pairs : List (ETier × X))
    (h : ∀ pr ∈ pairs, pr.1 = ((0 : ℤ) : ETier)) :
    dictGet pairs ((0 : ℤ) : ETier) = pairs.map (fun p => p.2) ∧
    (pairs ≠ [] → dictKeys pairs = [((0 : ℤ) : ETier)]) :=
  ⟨dictGet_all_keys pairs _ h, fun hne => dictKeys_all pairs _ h hne⟩

/-- C9: with grouped FDR disabled every peptide identification, protein hit
and protein group is keyed to tier `0`, each bucket dict has the single key
`0` holding all its records (in input order), and the whole engine run is
*equal* to the single-pass reference that classifies the records and applies
the peptide- and protein-level FDR procedures once over the full
unpartitioned input (including identical failure behaviour). -/
theorem c9_ungrouped_equivalence (o : FdrOracle) (cfg : Config) (m : TierMap)
    (px : Option (List ProteinGroup)) (pids : List LoadedProteinId)
    (peps : List PeptideId) (hg : cfg.groupFdr = false) :
    (∀ pairs, bucketPeptideIds cfg m peps = .ok pairs →
      (∀ pr ∈ pairs, pr.1 = ((0 : ℤ) : ETier)) ∧
      dictGet pairs ((0 : ℤ) : ETier) = pairs.map (fun p => p.2) ∧
      (pairs ≠ [] → dictKeys pairs = [((0 : ℤ) : ETier)])) ∧
    ((∀ pr ∈ bucketProteinHits cfg m pids, pr.1 = ((0 : ℤ) : ETier)) ∧
      dictGet (bucketProteinHits cfg m pids) ((0 : ℤ) : ETier)
        = (bucketProteinHits cfg m pids).map (fun p => p.2) ∧
      (bucketProteinHits cfg m pids ≠ [] →
        dictKeys (bucketProteinHits cfg m pids) = [((0 : ℤ) : ETier)])) ∧
    (∀ pgs pairs, bucketProteinGroups cfg m pgs = .ok pairs →
      (∀ pr ∈ pairs, pr.1 = ((0 : ℤ) : ETier)) ∧
      dictGet pairs ((0 : ℤ) : ETier) = pairs.map (fun p => p.2) ∧
      (pairs ≠ [] → dictKeys pairs = [((0 : ℤ) : ETier)])) ∧
    runEngine o cfg m px pids peps = singlePassRun o cfg m px pids peps := by
  refine ⟨?_, ?_, ?_, ?_⟩
  · intro pairs hok
    rw [bucketPeptideIds_eq] at hok
    cases hcl : exMapM (inferPsmDbInfo cfg m) peps with
    | error e => rw [hcl, exMap_err] at hok; cases hok
    | ok cl =>
      rw [hcl, exMap_ok] at hok
      injection hok with hok
      have hall : ∀ pr ∈ pairs, pr.1 = ((0 : ℤ) : ETier) := by
        intro pr hpr
        rw [← hok] at hpr
        obtain ⟨q, _, rfl⟩ := List.mem_map.mp hpr
        exact pepTierKey_ungrouped hg q
      exact ⟨hall, (allKeysZero_props pairs hall).1, (allKeysZero_props pairs hall).2⟩
  · have hall : ∀ pr ∈ bucketProteinHits cfg m pids, pr.1 = ((0 : ℤ) : ETier) := by
      intro pr hpr
      rw [bucketHits_ungrouped m pids hg] at hpr
      obtain ⟨h, _, rfl⟩ := List.mem_map.mp hpr
      rfl
    exact ⟨hall, (allKeysZero_props _ hall).1, (allKeysZero_props _ hall).2⟩
  · intro pgs pairs hok
    rw [bucketGroups_ungrouped m pgs hg] at hok
    injection hok with hok
    have hall : ∀ pr ∈ pairs, pr.1 = ((0 : ℤ) : ETier) := by
      intro pr hpr
      rw [← hok] at hpr
      obtain ⟨g, _, rfl⟩ := List.mem_map.mp hpr
      rfl
    exact ⟨hall, (allKeysZero_props pairs hall).1, (allKeysZero_props pairs hall).2⟩
  · cases hc : (peps.isEmpty && pids.isEmpty) with
    | true =>
      rw [runEngine_eq, hc]
      unfold singlePassRun
      rw [hc]
      rfl
    | false =>
      cases hr : resolveProteinGroups cfg px pids with
      | error e =>
        have h1 : runEngine o cfg m px pids peps = .error e := by
          rw [runEngine_eq, hc]
          simp only [Bool.false_eq_true, if_false]
          rw [hr, exBind_err]
        have h2 : singlePassRun o cfg m px pids peps = .error e := by
          unfold singlePassRun
          rw [hc]
          simp only [Bool.false_eq_true, if_false]
          rw [hr, exBind_err]
        rw [h1, h2]
      | ok r =>
        cases hcl : exMapM (inferPsmDbInfo cfg m) peps with
        | error e =>
          have h1 : runEngine o cfg m px pids peps = .error e := by
            rw [runEngine_eq, hc]
            simp only [Bool.false_eq_true, if_false]
            rw [hr, exBind_ok, bucketPeptideIds_eq, hcl, exMap_err, exBind_err]
          have h2 : singlePassRun o cfg m px pids peps = .error e := by
            unfold singlePassRun
            rw [hc]
            simp only [Bool.false_eq_true, if_false]
            rw [hr, exBind_ok, hcl, exBind_err]
          rw [h1, h2]
        | ok clPeps =>
          rw [runEngine_norm o cfg m px pids peps hg hc hr hcl,
            singlePassRun_norm o cfg m px pids peps hc hr hcl]

/-- Closed instance of `c9_ungrouped_equivalence` on concrete ungrouped data:
the peptide bucket keys collapse to `[0]` and the engine output equals the
single-pass reference output. -/
theorem c9_witness :
    (∃ pairs, bucketPeptideIds cfgU [] [pepA] = .ok pairs ∧
      dictKeys pairs = [((0 : ℤ) : ETier)]) ∧
    runEngine idOracle cfgU [] (some []) [pidA] [pepA]
      = singlePassRun idOracle cfgU [] (some []) [pidA] [pepA] := by
  constructor
  · have hok : bucketPeptideIds cfgU [] [pepA] = .ok
        [(((0 : ℤ) : ETier),
          { hits := [{ score := 7, evidences := [⟨"A"⟩],
                       targetDecoy := some "target", tier := none }] })] := by rfl
    refine ⟨_, hok, ?_⟩
    exact ((c9_ungrouped_equivalence idOracle cfgU [] (some []) [pidA] [pepA]
      rfl).1 _ hok).2.2 (by intro h; cases h)
  · exact (c9_ungrouped_equivalence idOracle cfgU [] (some []) [pidA] [pepA]
      rfl).2.2.2

theorem flatten_map_nil {α β : Type} (l : List α) :
    (l.map (fun _ => ([] : List β))).flatten = [] := by
  induction l with
  | nil => rfl
  | cons x xs ih => simp [ih]

theorem applyFdr_nopg (o : FdrOracle) {cfg : Config} (hnp : cfg.nopgFdr = true)
    (tiers : List ETier) (pp : List (ETier × PeptideId))
    (hp : List (ETier × ProteinHit)) (gp : List (ETier × ProteinGroup))
    (lk : List (String × ProteinGroup)) (pids : List LoadedProteinId) :
    applyFdrToTiers o cfg tiers pp hp gp lk pids =
      match pids with
      | [] => .error .inputError
      | ref :: _ =>
        .ok ([{ meta := ref.meta,
                hits := ((sortTiers tiers).map (fun t' =>
                  (dictGet hp t').map (o.basicHit (dictGet hp t')))).flatten,
                groups := [], indistProts := [] }],
             ((sortTiers tiers).map (fun t' =>
               (dictGet pp t').map (o.pepQ (dictGet pp t')))).flatten) := by
  rw [applyFdrToTiers_eq]
  have hpt : ∀ t' ∈ sortTiers tiers, processTier o cfg lk pp hp gp t'
      = .ok ({ peps := (dictGet pp t').map (o.pepQ (dictGet pp t')),
               hits := (dictGet hp t').map (o.basicHit (dictGet hp t')),
               grps := [], ips := [] } : TierOutput) := by
    intro t' _
    rw [processTier_eq]
    simp only [hnp]
    rfl
  rw [exMapM_of_ok_fun _ _ _ hpt, exBind_ok]
  cases pids with
  | nil => rfl
  | cons ref rest =>
    simp [List.map_map, Function.comp_def, flatten_map_nil]

theorem bucketHits_append (cfg : Config) (m : TierMap)
    (A B : List LoadedProteinId) :
    bucketProteinHits cfg m (A ++ B)
      = bucketProteinHits cfg m A ++ bucketProteinHits cfg m B := by
  unfold bucketProteinHits
  rw [List.flatMap_append, List.map_append]

theorem resolve_nopg {cfg : Config} (hnp : cfg.nopgFdr = true)
    (px : Option (List ProteinGroup)) (pids : List LoadedProteinId) :
    resolveProteinGroups cfg px pids = .ok ([], []) := by
  unfold resolveProteinGroups
  rw [hnp]
  rfl

theorem bucketGroups_nopg {cfg : Config} (m : TierMap) (hnp : cfg.nopgFdr = true)
    (pgs : List ProteinGroup) : bucketProteinGroups cfg m pgs = .ok [] := by
  unfold bucketProteinGroups
  rw [hnp]
  rfl

theorem exMapM_ok_ne_nil {α β : Type} {f : α → Except Err β} {xs : List α}
    {ys : List β} (h : exMapM f xs = .ok ys) (hne : xs ≠ []) : ys ≠ [] := by
  intro hnil
  subst hnil
  have hf := exMapM_ok_forall₂ f xs [] h
  cases hf
  exact hne rfl


theorem exMapM_congr {α β : Type} {f g : α → Except Err β} :
    ∀ (xs : List α), (∀ x ∈ xs, f x = g x) → exMapM f xs = exMapM g xs := by
  intro xs
  induction xs with
  | nil => intro _; rfl
  | cons x xs ih =>
    intro h
    rw [exMapM_cons, exMapM_cons, h x (List.mem_cons_self _ _),
      ih (fun a ha => h a (List.mem_cons_of_mem _ ha))]

theorem find?_append_of_none {α : Type} (p : α → Bool) (la lb : List α)
    (h : ∀ x ∈ la, p x = false) : (la ++ lb).find? p = lb.find? p := by
  induction la with
  | nil => rfl
  | cons x xs ih =>
    rw [List.cons_append, List.find?_cons_of_neg _
        (by rw [h x (List.mem_cons_self _ _)]; exact Bool.false_ne_true),
      ih (fun a ha => h a (List.mem_cons_of_mem _ ha))]

theorem pyFind_append_right_none {V : Type} {l1 l2 : List (String × V)} {k : String}
    (h : ∀ e ∈ l2, e.1 ≠ k) : pyFind (l1 ++ l2) k = pyFind l1 k := by
  unfold pyFind
  rw [List.reverse_append, find?_append_of_none]
  intro x hx
  exact decide_eq_false (h x (List.mem_reverse.mp hx))

theorem mergeGroupOne_congr {L L' : List (String × ProteinGroup)} {g : ProteinGroup}
    {a : String} {arest : List String} (hacc : g.accessions = a :: arest)
    (h : pyFind L' a = pyFind L a) : mergeGroupOne L' g = mergeGroupOne L g := by
  unfold mergeGroupOne
  rw [hacc]
  show (match pyFind L' a with
    | none => Except.error (Err.keyError a)
    | some orig => Except.ok { orig with probability := g.probability })
    = (match pyFind L a with
    | none => Except.error (Err.keyError a)
    | some orig => Except.ok { orig with probability := g.probability })
  rw [h]

theorem mergeGroups_ok_of_keys {lk : List (String × ProteinGroup)}
    {gs : List ProteinGroup}
    (h : ∀ g ∈ gs, ∃ a arest pg, g.accessions = a :: arest ∧ (a, pg) ∈ lk) :
    ∃ rs, mergeGroups lk gs = .ok rs := by
  obtain ⟨rs, hrs, _⟩ := exMapM_ok_of_forall (R := fun _ _ => True)
    (mergeGroupOne lk) gs (fun g hg => by
      obtain ⟨a, arest, pg, hacc, hmem⟩ := h g hg
      obtain ⟨r, hr⟩ := mergeGroupOne_ok_of_key hacc ⟨pg, hmem⟩
      exact ⟨r, hr, trivial⟩)
  exact ⟨rs, hrs⟩

theorem bucket_canonical_in_lookup {cfg : Config} {m : TierMap}
    {pgs : List ProteinGroup} {lk : List (String × ProteinGroup)}
    {pairs : List (ETier × ProteinGroup)}
    (hne : ∀ pg ∈ pgs, pg.accessions ≠ []) (hlk : mkPgLookup pgs = .ok lk)
    (hbk : bucketProteinGroups cfg m pgs = .ok pairs) :
    ∀ (t : ETier) (g : ProteinGroup), g ∈ dictGet pairs t →
      ∃ a arest pg, g.accessions = a :: arest ∧ (a, pg) ∈ lk := by
  intro t g hg
  have hpr : (t, g) ∈ pairs := dictGet_mem hg
  unfold bucketProteinGroups at hbk
  by_cases hnp : cfg.nopgFdr
  · rw [if_pos hnp] at hbk
    injection hbk with hbk
    rw [← hbk] at hpr
    cases hpr
  · rw [if_neg hnp] at hbk
    have hf2 := exMapM_ok_forall₂ _ _ _ hbk
    obtain ⟨pg, hpg, hpgok⟩ := forall₂_mem_right hf2 hpr
    cases hacc : pg.accessions with
    | nil => exact absurd hacc (hne pg hpg)
    | cons a0 rest0 =>
      obtain ⟨gr, hgr⟩ := inferPG_canonical hacc hpgok
      have hglk := exMapM_ok_forall₂ pgLookupEntry pgs lk hlk
      obtain ⟨pr, hprlk, hprok⟩ := forall₂_mem_left hglk hpg
      have hpr' : pr = (a0, pg) := by
        unfold pgLookupEntry at hprok
        rw [hacc] at hprok
        injection hprok with h1
        exact h1.symm
      exact ⟨a0, gr, pg, hgr, by rw [← hpr']; exact hprlk⟩

theorem bucketGroups_iff {cfg : Config} {m : TierMap} (hnp : cfg.nopgFdr = false)
    (pgs : List ProteinGroup) (q : List (ETier × ProteinGroup)) :
    bucketProteinGroups cfg m pgs = .ok q ↔
      exMapM (inferProteinGroupDbInfo cfg m) pgs = .ok q := by
  unfold bucketProteinGroups
  rw [hnp]
  simp only [Bool.false_eq_true, if_false]

theorem resolve_some {cfg : Config} (hnp : cfg.nopgFdr = false)
    (G : List ProteinGroup) (pids : List LoadedProteinId)
    {L : List (String × ProteinGroup)} (hl : mkPgLookup G = .ok L) :
    resolveProteinGroups cfg (some G) pids = .ok (G, L) := by
  unfold resolveProteinGroups
  rw [hnp]
  simp only [Bool.false_eq_true, if_false]
  show (mkPgLookup G >>= fun lk => Except.ok (G, lk)) = .ok (G, L)
  rw [hl, exBind_ok]

theorem processTier_picked {o : FdrOracle} {cfg : Config}
    {lk : List (String × ProteinGroup)} {pp : List (ETier × PeptideId)}
    {hp : List (ETier × ProteinHit)} {gp : List (ETier × ProteinGroup)}
    {t : ETier} {rs1 rs2 : List ProteinGroup} (hnp : cfg.nopgFdr = false)
    (h1 : mergeGroups lk ((dictGet gp t).map (fun g =>
      { g with probability := o.pickedGrp (dictGet hp t) (dictGet gp t) g })) = .ok rs1)
    (h2 : mergeGroups lk ((dictGet gp t).map (fun g =>
      { g with probability := o.pickedIp (dictGet hp t) (dictGet gp t) g })) = .ok rs2) :
    processTier o cfg lk pp hp gp t =
      .ok { peps := (dictGet pp t).map (o.pepQ (dictGet pp t)),
            hits := (dictGet hp t).map (o.pickedHit (dictGet hp t) (dictGet gp t)),
            grps := rs1, ips := rs2 } := by
  rw [processTier_eq]
  simp only [hnp, Bool.false_eq_true, if_false]
  rw [h1, exBind_ok, h2, exBind_ok]

theorem processTier_ok_grps {o : FdrOracle} {cfg : Config}
    {lk : List (String × ProteinGroup)} {pp : List (ETier × PeptideId)}
    {hp : List (ETier × ProteinHit)} {gp : List (ETier × ProteinGroup)}
    {t : ETier} {u : TierOutput} (hnp : cfg.nopgFdr = false)
    (h : processTier o cfg lk pp hp gp t = .ok u) :
    mergeGroups lk ((dictGet gp t).map (fun g =>
      { g with probability := o.pickedGrp (dictGet hp t) (dictGet gp t) g })) = .ok u.grps ∧
    mergeGroups lk ((dictGet gp t).map (fun g =>
      { g with probability := o.pickedIp (dictGet hp t) (dictGet gp t) g })) = .ok u.ips := by
  rw [processTier_eq] at h
  simp only [hnp, Bool.false_eq_true, if_false] at h
  cases hm1 : mergeGroups lk ((dictGet gp t).map (fun g =>
      { g with probability := o.pickedGrp (dictGet hp t) (dictGet gp t) g })) with
  | error e => rw [hm1, exBind_err] at h; cases h
  | ok g1 =>
    rw [hm1, exBind_ok] at h
    cases hm2 : mergeGroups lk ((dictGet gp t).map (fun g =>
        { g with probability := o.pickedIp (dictGet hp t) (dictGet gp t) g })) with
    | error e => rw [hm2, exBind_err] at h; cases h
    | ok g2 =>
      rw [hm2, exBind_ok] at h
      injection h with h
      rw [← h]
      exact ⟨rfl, rfl⟩

theorem forall₂_decomp_append_cons {α β : Type} {R : α → β → Prop} :
    ∀ (a : List α) {x : α} {b : List α} {ys : List β},
      List.Forall₂ R (a ++ x :: b) ys →
      ∃ ya y yb, ys = ya ++ y :: yb ∧ List.Forall₂ R a ya ∧ R x y ∧
        List.Forall₂ R b yb := by
  intro a
  induction a with
  | nil =>
    intro x b ys h
    cases h with
    | cons hr hrest => exact ⟨[], _, _, rfl, List.Forall₂.nil, hr, hrest⟩
  | cons z a' ih =>
    intro x b ys h
    cases h with
    | cons hz hrest =>
      obtain ⟨ya, y, yb, rfl, hfa, hxy, hfb⟩ := ih hrest
      exact ⟨_ :: ya, y, yb, rfl, List.Forall₂.cons hz hfa, hxy, hfb⟩

theorem runEngine_steps (o : FdrOracle) {cfg : Config} (m : TierMap)
    (G : List ProteinGroup) (pids : List LoadedProteinId) (peps : List PeptideId)
    (hnp : cfg.nopgFdr = false)
    (hc : (peps.isEmpty && pids.isEmpty) = false)
    {L : List (String × ProteinGroup)} (hl : mkPgLookup G = .ok L)
    {pp : List (ETier × PeptideId)} (hb : bucketPeptideIds cfg m peps = .ok pp)
    {gp : List (ETier × ProteinGroup)} (hg : bucketProteinGroups cfg m G = .ok gp) :
    runEngine o cfg m (some G) pids peps =
      applyFdrToTiers o cfg (collectTiers pp (bucketProteinHits cfg m pids) gp)
        pp (bucketProteinHits cfg m pids) gp L pids := by
  rw [runEngine_eq, hc]
  simp only [Bool.false_eq_true, if_false]
  rw [resolve_some hnp G pids hl, exBind_ok]
  dsimp only
  rw [hb, exBind_ok, hg, exBind_ok]

/-- C6: per-tier FDR passes are independent, in the general grouping-enabled
configuration including the default picked-protein branch. Run the engine
once on a single tier's peptides, protein hits and protein groups alone, and
once on the union with disjoint-tier records (with canonical group
accessions not shadowed across the two parts, as distinct database tiers
have): both runs succeed, and the solo run's merged peptide, protein-hit,
protein-group and indistinguishable-protein outputs are exactly the union
run's tier-`t` components — the same per-record annotations computed from
the same tier-`t` buckets, with the group statistics written back through
the union run's global lookup — and they reappear verbatim as contiguous
segments of the union run's merged outputs. A decoy in another tier never
influences tier `t`'s statistics. -/
theorem c6_tier_isolation (o : FdrOracle) (cfg : Config) (m : TierMap) (t : ETier)
    (I1 I2 : List PeptideId) (H1 H2 : List LoadedProteinId)
    (G1 G2 : List ProteinGroup) (hgf : cfg.groupFdr = true)
    (p1 p2 : List (ETier × PeptideId)) (q1 q2 : List (ETier × ProteinGroup))
    (L1 L2 : List (String × ProteinGroup))
    (hb1 : bucketPeptideIds cfg m I1 = .ok p1)
    (hb2 : bucketPeptideIds cfg m I2 = .ok p2)
    (hk1 : ∀ pr ∈ p1, pr.1 = t) (hk2 : ∀ pr ∈ p2, pr.1 ≠ t)
    (hH1 : ∀ pr ∈ bucketProteinHits cfg m H1, pr.1 = t)
    (hH2 : ∀ pr ∈ bucketProteinHits cfg m H2, pr.1 ≠ t)
    (hg1 : bucketProteinGroups cfg m G1 = .ok q1)
    (hg2 : bucketProteinGroups cfg m G2 = .ok q2)
    (hqk1 : ∀ pr ∈ q1, pr.1 = t) (hqk2 : ∀ pr ∈ q2, pr.1 ≠ t)
    (hne1G : ∀ pg ∈ G1, pg.accessions ≠ [])
    (hne2G : ∀ pg ∈ G2, pg.accessions ≠ [])
    (hl1 : mkPgLookup G1 = .ok L1) (hl2 : mkPgLookup G2 = .ok L2)
    (hdisj : ∀ e2 ∈ L2, ∀ e1 ∈ L1, e2.1 ≠ e1.1)
    (hne : I1 ≠ []) (hH1ne : H1 ≠ []) :
    ∃ outS outU,
      runEngine o cfg m (some G1) H1 I1 = .ok outS ∧
      runEngine o cfg m (some (G1 ++ G2)) (H1 ++ H2) (I1 ++ I2) = .ok outU ∧
      outS.2 = (dictGet (p1 ++ p2) t).map (o.pepQ (dictGet (p1 ++ p2) t)) ∧
      (∃ pre post, outU.2 = pre ++ outS.2 ++ post) ∧
      ∃ finS finU, outS.1 = [finS] ∧ outU.1 = [finU] ∧
        finS.hits = (if cfg.nopgFdr
          then (dictGet (bucketProteinHits cfg m (H1 ++ H2)) t).map
            (o.basicHit (dictGet (bucketProteinHits cfg m (H1 ++ H2)) t))
          else (dictGet (bucketProteinHits cfg m (H1 ++ H2)) t).map
            (o.pickedHit (dictGet (bucketProteinHits cfg m (H1 ++ H2)) t)
              (dictGet (q1 ++ q2) t))) ∧
        (∃ ph qh, finU.hits = ph ++ finS.hits ++ qh) ∧
        (if cfg.nopgFdr then pure []
         else mergeGroups (L1 ++ L2) ((dictGet (q1 ++ q2) t).map (fun g =>
           { g with probability := (o.pickedGrp
               (dictGet (bucketProteinHits cfg m (H1 ++ H2)) t)
               (dictGet (q1 ++ q2) t) g) }))) = Except.ok finS.groups ∧
        (∃ pg qg, finU.groups = pg ++ finS.groups ++ qg) ∧
        (if cfg.nopgFdr then pure []
         else mergeGroups (L1 ++ L2) ((dictGet (q1 ++ q2) t).map (fun g =>
           { g with probability := (o.pickedIp
               (dictGet (bucketProteinHits cfg m (H1 ++ H2)) t)
               (dictGet (q1 ++ q2) t) g) }))) = Except.ok finS.indistProts ∧
        (∃ pi qi, finU.indistProts = pi ++ finS.indistProts ++ qi) ∧
        finS.meta = finU.meta := by
  obtain ⟨ref, rest1, hH1eq⟩ : ∃ ref rest1, H1 = ref :: rest1 := by
    cases H1 with
    | nil => exact absurd rfl hH1ne
    | cons a b => exact ⟨a, b, rfl⟩
  subst hH1eq
  have hIe : I1.isEmpty = false := by
    cases I1 with
    | nil => exact absurd rfl hne
    | cons a b => rfl
  have hIUe : (I1 ++ I2).isEmpty = false := by
    cases I1 with
    | nil => exact absurd rfl hne
    | cons a b => rfl
  have hcS : (I1.isEmpty && (ref :: rest1).isEmpty) = false := by rw [hIe]; rfl
  have hcU : ((I1 ++ I2).isEmpty && ((ref :: rest1) ++ H2).isEmpty) = false := by
    rw [hIUe]; rfl
  have hp1ne : p1 ≠ [] := exMapM_ok_ne_nil hb1 hne
  have hbU : bucketPeptideIds cfg m (I1 ++ I2) = .ok (p1 ++ p2) :=
    exMapM_append_ok _ hb1 hb2
  have hhU : bucketProteinHits cfg m ((ref :: rest1) ++ H2)
      = bucketProteinHits cfg m (ref :: rest1) ++ bucketProteinHits cfg m H2 :=
    bucketHits_append cfg m (ref :: rest1) H2
  have hdgP : dictGet (p1 ++ p2) t = dictGet p1 t := by
    rw [dictGet_append, dictGet_none p2 t hk2, List.append_nil]
  have hdgH : dictGet (bucketProteinHits cfg m ((ref :: rest1) ++ H2)) t
      = dictGet (bucketProteinHits cfg m (ref :: rest1)) t := by
    rw [hhU, dictGet_append, dictGet_none _ t hH2, List.append_nil]
  have hdgG : dictGet (q1 ++ q2) t = dictGet q1 t := by
    rw [dictGet_append, dictGet_none q2 t hqk2, List.append_nil]
  have hdgH2 : dictGet (bucketProteinHits cfg m (ref :: (rest1 ++ H2))) t
      = dictGet (bucketProteinHits cfg m (ref :: rest1)) t := by
    simpa only [List.cons_append] using hdgH
  cases hnp : cfg.nopgFdr with
  | true =>
    have hq1nil : q1 = [] := by
      rw [bucketGroups_nopg m hnp G1] at hg1
      injection hg1 with hg1
      exact hg1.symm
    have hq2nil : q2 = [] := by
      rw [bucketGroups_nopg m hnp G2] at hg2
      injection hg2 with hg2
      exact hg2.symm
    subst hq1nil
    subst hq2nil
    have hKS : collectTiers p1 (bucketProteinHits cfg m (ref :: rest1))
        ([] : List (ETier × ProteinGroup)) = [t] := by
      unfold collectTiers
      apply dedup_const
      · intro hcat
        have h1 := (List.append_eq_nil.mp (List.append_eq_nil.mp hcat).1).1
        exact hp1ne ((dictKeys_map_nil_iff p1).mp h1)
      · intro x hx
        rcases List.mem_append.mp hx with hx' | h3
        · rcases List.mem_append.mp hx' with h1 | h2
          · obtain ⟨pr, hpr, rfl⟩ := (dictKeys_mem _ _).mp h1
            exact hk1 pr hpr
          · obtain ⟨pr, hpr, rfl⟩ := (dictKeys_mem _ _).mp h2
            exact hH1 pr hpr
        · cases h3
    have hrunS : runEngine o cfg m (some G1) (ref :: rest1) I1
        = applyFdrToTiers o cfg
            (collectTiers p1 (bucketProteinHits cfg m (ref :: rest1))
              ([] : List (ETier × ProteinGroup)))
            p1 (bucketProteinHits cfg m (ref :: rest1))
            ([] : List (ETier × ProteinGroup))
            ([] : List (String × ProteinGroup)) (ref :: rest1) := by
      rw [runEngine_eq, hcS]
      simp only [Bool.false_eq_true, if_false, resolve_nopg hnp, exBind_ok, hb1,
        bucketGroups_nopg m hnp]
    rw [applyFdr_nopg o hnp, hKS] at hrunS
    have hsortt : sortTiers [t] = [t] := rfl
    rw [hsortt] at hrunS
    simp only [List.map_cons, List.map_nil, List.flatten_cons, List.flatten_nil,
      List.append_nil] at hrunS
    have hrunU : runEngine o cfg m (some (G1 ++ G2)) ((ref :: rest1) ++ H2) (I1 ++ I2)
        = applyFdrToTiers o cfg
            (collectTiers (p1 ++ p2)
              (bucketProteinHits cfg m ((ref :: rest1) ++ H2))
              ([] : List (ETier × ProteinGroup)))
            (p1 ++ p2) (bucketProteinHits cfg m ((ref :: rest1) ++ H2))
            ([] : List (ETier × ProteinGroup))
            ([] : List (String × ProteinGroup)) ((ref :: rest1) ++ H2) := by
      rw [runEngine_eq, hcU]
      simp only [Bool.false_eq_true, if_false, resolve_nopg hnp, exBind_ok, hbU,
        bucketGroups_nopg m hnp]
    rw [applyFdr_nopg o hnp] at hrunU
    have htU : t ∈ sortTiers (collectTiers (p1 ++ p2)
        (bucketProteinHits cfg m ((ref :: rest1) ++ H2))
        ([] : List (ETier × ProteinGroup))) := by
      rw [sortTiers_mem, collectTiers_mem]
      refine Or.inl ((dictKeys_mem _ _).mpr ?_)
      cases hp1c : p1 with
      | nil => exact absurd hp1c hp1ne
      | cons pr prs =>
        refine ⟨pr, ?_, hk1 pr (by rw [hp1c]; exact List.mem_cons_self _ _)⟩
        exact List.mem_append_left _ (List.mem_cons_self _ _)
    obtain ⟨a, b, hab⟩ := List.append_of_mem htU
    rw [hab] at hrunU
    simp only [List.cons_append] at hrunU
    simp only [List.map_append, List.map_cons, List.flatten_append,
      List.flatten_cons] at hrunU
    refine ⟨_, _, hrunS, hrunU, ?_, ?_, ?_⟩
    · simp only [List.cons_append]
      rw [hdgP]
    · refine ⟨(a.map (fun t' => (dictGet (p1 ++ p2) t').map
          (o.pepQ (dictGet (p1 ++ p2) t')))).flatten, (b.map (fun t' =>
          (dictGet (p1 ++ p2) t').map (o.pepQ (dictGet (p1 ++ p2) t')))).flatten, ?_⟩
      simp only [List.cons_append]
      rw [hdgP, List.append_assoc]
    · refine ⟨_, _, rfl, rfl, ?_, ?_, rfl, ⟨[], [], rfl⟩, rfl, ⟨[], [], rfl⟩, rfl⟩
      · simp only [List.cons_append]
        rw [hdgH2]
        simp
      · refine ⟨(a.map (fun t' =>
            (dictGet (bucketProteinHits cfg m (ref :: (rest1 ++ H2))) t').map
              (o.basicHit (dictGet (bucketProteinHits cfg m (ref :: (rest1 ++ H2))) t')))).flatten,
          (b.map (fun t' =>
            (dictGet (bucketProteinHits cfg m (ref :: (rest1 ++ H2))) t').map
              (o.basicHit (dictGet (bucketProteinHits cfg m (ref :: (rest1 ++ H2))) t')))).flatten,
          ?_⟩
        rw [← hdgH2]
        simp only [List.append_assoc]
  | false =>
    have hlU : mkPgLookup (G1 ++ G2) = .ok (L1 ++ L2) := exMapM_append_ok _ hl1 hl2
    have hgU : bucketProteinGroups cfg m (G1 ++ G2) = .ok (q1 ++ q2) :=
      (bucketGroups_iff hnp _ _).mpr (exMapM_append_ok _
        ((bucketGroups_iff hnp _ _).mp hg1) ((bucketGroups_iff hnp _ _).mp hg2))
    have hneUG : ∀ pg ∈ G1 ++ G2, pg.accessions ≠ [] := by
      intro pg hpg
      rcases List.mem_append.mp hpg with h | h
      · exact hne1G pg h
      · exact hne2G pg h
    have hcan1 := bucket_canonical_in_lookup hne1G hl1 hg1
    have hcanU := bucket_canonical_in_lookup hneUG hlU hgU
    have hmerge1 : ∀ (gs' : List ProteinGroup),
        (∀ g' ∈ gs', ∃ g, g ∈ dictGet q1 t ∧ g'.accessions = g.accessions) →
        ∃ rs, mergeGroups L1 gs' = .ok rs := by
      intro gs' hmemf
      apply mergeGroups_ok_of_keys
      intro g' hg'
      obtain ⟨g, hg, hacc⟩ := hmemf g' hg'
      obtain ⟨a0, arest, pg, hacc2, hpgmem⟩ := hcan1 t g hg
      exact ⟨a0, arest, pg, by rw [hacc, hacc2], hpgmem⟩
    have hmergeU : ∀ (t' : ETier) (gs' : List ProteinGroup),
        (∀ g' ∈ gs', ∃ g, g ∈ dictGet (q1 ++ q2) t' ∧ g'.accessions = g.accessions) →
        ∃ rs, mergeGroups (L1 ++ L2) gs' = .ok rs := by
      intro t' gs' hmemf
      apply mergeGroups_ok_of_keys
      intro g' hg'
      obtain ⟨g, hg, hacc⟩ := hmemf g' hg'
      obtain ⟨a0, arest, pg, hacc2, hpgmem⟩ := hcanU t' g hg
      exact ⟨a0, arest, pg, by rw [hacc, hacc2], hpgmem⟩
    have hcongr : ∀ (gs' : List ProteinGroup),
        (∀ g' ∈ gs', ∃ g, g ∈ dictGet q1 t ∧ g'.accessions = g.accessions) →
        mergeGroups (L1 ++ L2) gs' = mergeGroups L1 gs' := by
      intro gs' hmemf
      apply exMapM_congr
      intro g' hg'
      obtain ⟨g, hg, hacc⟩ := hmemf g' hg'
      obtain ⟨a0, arest, pg, hacc2, hpgmem⟩ := hcan1 t g hg
      refine mergeGroupOne_congr (by rw [hacc, hacc2]) ?_
      exact pyFind_append_right_none (fun e he => hdisj e he (a0, pg) hpgmem)
    have hsideGrp : ∀ g' ∈ (dictGet q1 t).map (fun g =>
        ({ g with probability := (o.pickedGrp
            (dictGet (bucketProteinHits cfg m (ref :: rest1)) t) (dictGet q1 t) g) })),
        ∃ g, g ∈ dictGet q1 t ∧ g'.accessions = g.accessions := by
      intro g' hg'
      obtain ⟨g, hg, rfl⟩ := List.mem_map.mp hg'
      exact ⟨g, hg, rfl⟩
    have hsideIp : ∀ g' ∈ (dictGet q1 t).map (fun g =>
        ({ g with probability := (o.pickedIp
            (dictGet (bucketProteinHits cfg m (ref :: rest1)) t) (dictGet q1 t) g) })),
        ∃ g, g ∈ dictGet q1 t ∧ g'.accessions = g.accessions := by
      intro g' hg'
      obtain ⟨g, hg, rfl⟩ := List.mem_map.mp hg'
      exact ⟨g, hg, rfl⟩
    obtain ⟨rs1, hrs1⟩ := hmerge1 _ hsideGrp
    obtain ⟨rs2, hrs2⟩ := hmerge1 _ hsideIp
    have hptS : processTier o cfg L1 p1 (bucketProteinHits cfg m (ref :: rest1)) q1 t
        = .ok { peps := (dictGet p1 t).map (o.pepQ (dictGet p1 t)),
                hits := ((dictGet (bucketProteinHits cfg m (ref :: rest1)) t).map
                  (o.pickedHit (dictGet (bucketProteinHits cfg m (ref :: rest1)) t)
                    (dictGet q1 t))),
                grps := rs1, ips := rs2 } :=
      processTier_picked hnp hrs1 hrs2
    have hKS : collectTiers p1 (bucketProteinHits cfg m (ref :: rest1)) q1 = [t] := by
      unfold collectTiers
      apply dedup_const
      · intro hcat
        have h1 := (List.append_eq_nil.mp (List.append_eq_nil.mp hcat).1).1
        exact hp1ne ((dictKeys_map_nil_iff p1).mp h1)
      · intro x hx
        rcases List.mem_append.mp hx with hx' | h3
        · rcases List.mem_append.mp hx' with h1 | h2
          · obtain ⟨pr, hpr, rfl⟩ := (dictKeys_mem _ _).mp h1
            exact hk1 pr hpr
          · obtain ⟨pr, hpr, rfl⟩ := (dictKeys_mem _ _).mp h2
            exact hH1 pr hpr
        · obtain ⟨pr, hpr, rfl⟩ := (dictKeys_mem _ _).mp h3
          exact hqk1 pr hpr
    have hrunS : runEngine o cfg m (some G1) (ref :: rest1) I1
        = .ok ([{ meta := ref.meta,
                  hits := ((dictGet (bucketProteinHits cfg m (ref :: rest1)) t).map
                    (o.pickedHit (dictGet (bucketProteinHits cfg m (ref :: rest1)) t)
                      (dictGet q1 t))),
                  groups := rs1, indistProts := rs2 }],
               (dictGet p1 t).map (o.pepQ (dictGet p1 t))) := by
      rw [runEngine_steps o m G1 (ref :: rest1) I1 hnp hcS hl1 hb1 hg1,
        applyFdrToTiers_eq, hKS]
      have hsortt : sortTiers [t] = [t] := rfl
      rw [hsortt, exMapM_cons, hptS, exBind_ok, exMapM_nil, exBind_ok, exBind_ok]
      simp only [List.map_cons, List.map_nil, List.flatten_cons, List.flatten_nil,
        List.append_nil]
    obtain ⟨outs, hys, hfor⟩ := exMapM_ok_of_forall
      (R := fun t' u => processTier o cfg (L1 ++ L2) (p1 ++ p2)
        (bucketProteinHits cfg m ((ref :: rest1) ++ H2)) (q1 ++ q2) t' = .ok u)
      (processTier o cfg (L1 ++ L2) (p1 ++ p2)
        (bucketProteinHits cfg m ((ref :: rest1) ++ H2)) (q1 ++ q2))
      (sortTiers (collectTiers (p1 ++ p2)
        (bucketProteinHits cfg m ((ref :: rest1) ++ H2)) (q1 ++ q2)))
      (fun t' _ => by
        obtain ⟨ra, hra⟩ := hmergeU t' _ (fun g' hg' => by
          obtain ⟨g, hg, rfl⟩ := List.mem_map.mp hg'
          exact ⟨g, hg, rfl⟩ :
          ∀ g' ∈ (dictGet (q1 ++ q2) t').map (fun g =>
            ({ g with probability := (o.pickedGrp
                (dictGet (bucketProteinHits cfg m ((ref :: rest1) ++ H2)) t')
                (dictGet (q1 ++ q2) t') g) })), _)
        obtain ⟨rb, hrb⟩ := hmergeU t' _ (fun g' hg' => by
          obtain ⟨g, hg, rfl⟩ := List.mem_map.mp hg'
          exact ⟨g, hg, rfl⟩ :
          ∀ g' ∈ (dictGet (q1 ++ q2) t').map (fun g =>
            ({ g with probability := (o.pickedIp
                (dictGet (bucketProteinHits cfg m ((ref :: rest1) ++ H2)) t')
                (dictGet (q1 ++ q2) t') g) })), _)
        exact ⟨_, processTier_picked hnp hra hrb, processTier_picked hnp hra hrb⟩)
    have hrunU : runEngine o cfg m (some (G1 ++ G2)) ((ref :: rest1) ++ H2) (I1 ++ I2)
        = .ok ([{ meta := ref.meta,
                  hits := (outs.map (fun u => u.hits)).flatten,
                  groups := (outs.map (fun u => u.grps)).flatten,
                  indistProts := (outs.map (fun u => u.ips)).flatten }],
               (outs.map (fun u => u.peps)).flatten) := by
      rw [runEngine_steps o m (G1 ++ G2) ((ref :: rest1) ++ H2) (I1 ++ I2) hnp hcU
        hlU hbU hgU, applyFdrToTiers_eq, hys, exBind_ok]
      simp only [List.cons_append]
    have htU : t ∈ sortTiers (collectTiers (p1 ++ p2)
        (bucketProteinHits cfg m ((ref :: rest1) ++ H2)) (q1 ++ q2)) := by
      rw [sortTiers_mem, collectTiers_mem]
      refine Or.inl ((dictKeys_mem _ _).mpr ?_)
      cases hp1c : p1 with
      | nil => exact absurd hp1c hp1ne
      | cons pr prs =>
        refine ⟨pr, ?_, hk1 pr (by rw [hp1c]; exact List.mem_cons_self _ _)⟩
        exact List.mem_append_left _ (List.mem_cons_self _ _)
    obtain ⟨a, b, hab⟩ := List.append_of_mem htU
    rw [hab] at hfor
    obtain ⟨oa, u, ob, houts, hfa, hut, hfb⟩ := forall₂_decomp_append_cons a hfor
    subst houts
    have hu_peps : u.peps = (dictGet (p1 ++ p2) t).map (o.pepQ (dictGet (p1 ++ p2) t)) :=
      (processTier_ok_parts hut).1
    have hu_hits : u.hits = (dictGet (bucketProteinHits cfg m ((ref :: rest1) ++ H2)) t).map
        (o.pickedHit (dictGet (bucketProteinHits cfg m ((ref :: rest1) ++ H2)) t)
          (dictGet (q1 ++ q2) t)) := by
      have := (processTier_ok_parts hut).2
      rw [this, hnp]
      simp
    have hu_grps : u.grps = rs1 := by
      have h1 := (processTier_ok_grps hnp hut).1
      rw [hdgG, hdgH] at h1
      rw [hcongr _ hsideGrp, hrs1] at h1
      injection h1 with h1
      exact h1.symm
    have hu_ips : u.ips = rs2 := by
      have h1 := (processTier_ok_grps hnp hut).2
      rw [hdgG, hdgH] at h1
      rw [hcongr _ hsideIp, hrs2] at h1
      injection h1 with h1
      exact h1.symm
    refine ⟨_, _, hrunS, hrunU, ?_, ?_, ?_⟩
    · show (dictGet p1 t).map (o.pepQ (dictGet p1 t))
        = (dictGet (p1 ++ p2) t).map (o.pepQ (dictGet (p1 ++ p2) t))
      rw [hdgP]
    · refine ⟨(oa.map (fun v => v.peps)).flatten, (ob.map (fun v => v.peps)).flatten, ?_⟩
      show ((oa ++ u :: ob).map (fun v => v.peps)).flatten = _
      rw [List.map_append, List.map_cons, List.flatten_append, List.flatten_cons,
        hu_peps, hdgP, List.append_assoc]
    · refine ⟨_, _, rfl, rfl, ?_, ?_, ?_, ?_, ?_, ?_, rfl⟩
      · simp only [List.cons_append]
        rw [hdgH2, hdgG]
        simp
      · refine ⟨(oa.map (fun v => v.hits)).flatten, (ob.map (fun v => v.hits)).flatten, ?_⟩
        show ((oa ++ u :: ob).map (fun v => v.hits)).flatten = _
        rw [List.map_append, List.map_cons, List.flatten_append, List.flatten_cons,
          hu_hits, hdgH, hdgG]
        simp only [List.append_assoc]
      · show mergeGroups (L1 ++ L2) _ = Except.ok rs1
        rw [hdgG, hdgH, hcongr _ hsideGrp]
        exact hrs1
      · refine ⟨(oa.map (fun v => v.grps)).flatten, (ob.map (fun v => v.grps)).flatten, ?_⟩
        show ((oa ++ u :: ob).map (fun v => v.grps)).flatten = _
        rw [List.map_append, List.map_cons, List.flatten_append, List.flatten_cons,
          hu_grps, List.append_assoc]
      · show mergeGroups (L1 ++ L2) _ = Except.ok rs2
        rw [hdgG, hdgH, hcongr _ hsideIp]
        exact hrs2
      · refine ⟨(oa.map (fun v => v.ips)).flatten, (ob.map (fun v => v.ips)).flatten, ?_⟩
        show ((oa ++ u :: ob).map (fun v => v.ips)).flatten = _
        rw [List.map_append, List.map_cons, List.flatten_append, List.flatten_cons,
          hu_ips, List.append_assoc]

/-- Closed instance of the tier-isolation theorem: the default picked-protein
configuration `cfgG` on concrete tier-1 and tier-2 records. -/
theorem c6_witness :
    ∃ outS outU,
      runEngine idOracle cfgG mW (some [pgA]) [pidA1] [pepA] = .ok outS ∧
      runEngine idOracle cfgG mW (some ([pgA] ++ [pgB])) ([pidA1] ++ [pidB])
        ([pepA] ++ [pepB]) = .ok outU ∧
      outS.2 = (dictGet (pW1 ++ pW2) ((1 : ℤ) : ETier)).map
        (idOracle.pepQ (dictGet (pW1 ++ pW2) ((1 : ℤ) : ETier))) ∧
      (∃ pre post, outU.2 = pre ++ outS.2 ++ post) ∧
      ∃ finS finU, outS.1 = [finS] ∧ outU.1 = [finU] ∧
        finS.hits = (if cfgG.nopgFdr
          then (dictGet (bucketProteinHits cfgG mW ([pidA1] ++ [pidB])) ((1 : ℤ) : ETier)).map
            (idOracle.basicHit
              (dictGet (bucketProteinHits cfgG mW ([pidA1] ++ [pidB])) ((1 : ℤ) : ETier)))
          else (dictGet (bucketProteinHits cfgG mW ([pidA1] ++ [pidB])) ((1 : ℤ) : ETier)).map
            (idOracle.pickedHit
              (dictGet (bucketProteinHits cfgG mW ([pidA1] ++ [pidB])) ((1 : ℤ) : ETier))
              (dictGet (qWA ++ qWB) ((1 : ℤ) : ETier)))) ∧
        (∃ ph qh, finU.hits = ph ++ finS.hits ++ qh) ∧
        (if cfgG.nopgFdr then pure []
         else mergeGroups (lkA ++ lkB) ((dictGet (qWA ++ qWB) ((1 : ℤ) : ETier)).map (fun g =>
           { g with probability := (idOracle.pickedGrp
               (dictGet (bucketProteinHits cfgG mW ([pidA1] ++ [pidB])) ((1 : ℤ) : ETier))
               (dictGet (qWA ++ qWB) ((1 : ℤ) : ETier)) g) }))) = Except.ok finS.groups ∧
        (∃ pg qg, finU.groups = pg ++ finS.groups ++ qg) ∧
        (if cfgG.nopgFdr then pure []
         else mergeGroups (lkA ++ lkB) ((dictGet (qWA ++ qWB) ((1 : ℤ) : ETier)).map (fun g =>
           { g with probability := (idOracle.pickedIp
               (dictGet (bucketProteinHits cfgG mW ([pidA1] ++ [pidB])) ((1 : ℤ) : ETier))
               (dictGet (qWA ++ qWB) ((1 : ℤ) : ETier)) g) }))) = Except.ok finS.indistProts ∧
        (∃ pi qi, finU.indistProts = pi ++ finS.indistProts ++ qi) ∧
        finS.meta = finU.meta :=
  c6_tier_isolation idOracle cfgG mW ((1 : ℤ) : ETier) [pepA] [pepB]
    [pidA1] [pidB] [pgA] [pgB] rfl pW1 pW2 qWA qWB lkA lkB
    rfl rfl (by decide) (by decide) (by decide) (by decide) rfl rfl
    (by decide) (by decide) (by decide) (by decide) rfl rfl
    (by decide) (List.cons_ne_nil _ _) (List.cons_ne_nil _ _)
